import Mathlib

/-!
Verification of the RehabAI persistence module (src/backend/database.py).

The module is CRUD glue over a SQLite store accessed through an ORM:
`save_plan` serializes a structured plan with the standard JSON encoder and
appends one row, `get_all_plans` / `get_plan_by_id` read rows back, and
`get_stats` computes a count, per-procedure counts, and the storage engine's
`avg` aggregate over the string-typed `patient_age` column.

The embedding below models:
  * Python values handed to the JSON encoder (`PyVal`), the encoder
    (`dumps`, the semantics of `json.dumps` with its default settings:
    ASCII-only output, separators ", " and ": ", string keys coerced from
    ints/bools/None, tuples written as arrays, a TypeError — modeled as
    `Option.none` — on unsupported objects), and the decoder (`loads`, the
    semantics of `json.loads` restricted to the fragment without floats);
  * the database table as a list of rows plus the SQLite rowid rule
    (next id = largest existing id + 1);
  * the SQLite text-to-number coercion used by `avg` over a TEXT column
    (a non-numeric string counts as 0), with exact rational arithmetic in
    place of the engine's floating point;
  * storage failure during the insert as an explicit flag: the code wraps
    the insert in try/except, rolls the transaction back and returns None,
    so a failed insert leaves the state unchanged.

Strings inside Python values are lists of code points (`List Nat`), because
Python's `str` admits lone surrogates that Lean's `String` cannot carry.
-/

/-- Keys of a Python dict as far as `json.dumps` is concerned: strings,
ints, bools and None are coerced to JSON string keys; anything else would
raise.  Floats are outside the embedded fragment. -/
inductive PyKey where
  | kstr (s : List Nat)
  | kint (n : Int)
  | kbool (b : Bool)
  | knone

mutual
/-- Python values handed to `json.dumps` (floats excluded from the
fragment).  `obj` stands for any value the encoder cannot handle, for
which `json.dumps` raises TypeError. -/
inductive PyVal where
  | null
  | bool (b : Bool)
  | int (n : Int)
  | str (s : List Nat)
  | list (xs : PyList)
  | tuple (xs : PyList)
  | dict (es : PyDict)
  | obj
inductive PyList where
  | nil
  | cons (hd : PyVal) (tl : PyList)
inductive PyDict where
  | nil
  | cons (k : PyKey) (v : PyVal) (tl : PyDict)
end

/-- Code points of a Lean string literal, for ASCII keyword tokens. -/
def sLit (s : String) : List Nat := s.data.map Char.toNat

/-- Most-significant-first decimal digits of `n`, as code points; the fuel
argument makes the recursion structural, `natDecimal` supplies enough. -/
def natDecAux : Nat → Nat → List Nat
  | 0, _ => []
  | f + 1, n => if n < 10 then [48 + n] else natDecAux f (n / 10) ++ [48 + n % 10]

/-- Decimal digits of a natural number, as code points. -/
def natDecimal (n : Nat) : List Nat := natDecAux (n + 1) n

/-- Decimal text of an integer, as code points (minus sign when negative),
as produced by Python's `str`/`json.dumps` for an int. -/
def intDecimal (n : Int) : List Nat :=
  if n < 0 then 45 :: natDecimal (-n).toNat else natDecimal n.toNat

/-- Lower-case hex digit for a value below 16, as a code point. -/
def hexDigit (d : Nat) : Nat := if d < 10 then 48 + d else 87 + d

/-- Four-digit lower-case hex text of a value below 65536. -/
def hex4 (n : Nat) : List Nat :=
  [hexDigit (n / 4096 % 16), hexDigit (n / 256 % 16), hexDigit (n / 16 % 16), hexDigit (n % 16)]

/-- How `json.dumps` (default settings, ASCII-only output) writes one
character inside a JSON string: the two-character escapes for quote,
backslash and the named control characters, `\uXXXX` for other control
and all non-ASCII characters, and a surrogate pair of `\uXXXX` escapes
for characters beyond the basic plane. -/
def escapeChar (c : Nat) : List Nat :=
  if c = 34 then [92, 34]
  else if c = 92 then [92, 92]
  else if c = 8 then [92, 98]
  else if c = 9 then [92, 116]
  else if c = 10 then [92, 110]
  else if c = 12 then [92, 102]
  else if c = 13 then [92, 114]
  else if c < 32 then 92 :: 117 :: hex4 c
  else if c ≤ 126 then [c]
  else if c ≤ 65535 then 92 :: 117 :: hex4 c
  else 92 :: 117 :: hex4 (55296 + (c - 65536) / 1024) ++ 92 :: 117 :: hex4 (56320 + (c - 65536) % 1024)

/-- JSON string token for a Python string: quote, escaped characters, quote. -/
def dumpStr (s : List Nat) : List Nat := 34 :: (s.map escapeChar).flatten ++ [34]

/-- How `json.dumps` writes a dict key: string keys as JSON strings, and
int, bool and None keys coerced to their text form inside quotes. -/
def dumpKey : PyKey → List Nat
  | .kstr s => dumpStr s
  | .kint n => 34 :: intDecimal n ++ [34]
  | .kbool true => sLit "\"true\""
  | .kbool false => sLit "\"false\""
  | .knone => sLit "\"null\""

mutual
/-- The JSON encoder applied by `save_plan` (`json.dumps(plan)` with default
settings).  Returns `none` exactly where the encoder raises TypeError:
when the value contains an unsupported object.  Lists and tuples both
become arrays; dict keys are coerced by `dumpKey`; the separators are
", " and ": ". -/
def dumps : PyVal → Option (List Nat)
  | .null => some (sLit "null")
  | .bool true => some (sLit "true")
  | .bool false => some (sLit "false")
  | .int n => some (intDecimal n)
  | .str s => some (dumpStr s)
  | .list xs =>
    match dumpsItems xs with
    | some t => some (91 :: t ++ [93])
    | none => none
  | .tuple xs =>
    match dumpsItems xs with
    | some t => some (91 :: t ++ [93])
    | none => none
  | .dict es =>
    match dumpsEntries es with
    | some t => some (123 :: t ++ [125])
    | none => none
  | .obj => none
def dumpsItems : PyList → Option (List Nat)
  | .nil => some []
  | .cons v tl =>
    match dumps v, dumpsItemsRest tl with
    | some t, some ts => some (t ++ ts)
    | _, _ => none
def dumpsItemsRest : PyList → Option (List Nat)
  | .nil => some []
  | .cons v tl =>
    match dumps v, dumpsItemsRest tl with
    | some t, some ts => some (44 :: 32 :: t ++ ts)
    | _, _ => none
def dumpsEntries : PyDict → Option (List Nat)
  | .nil => some []
  | .cons k v tl =>
    match dumps v, dumpsEntriesRest tl with
    | some t, some ts => some (dumpKey k ++ 58 :: 32 :: t ++ ts)
    | _, _ => none
def dumpsEntriesRest : PyDict → Option (List Nat)
  | .nil => some []
  | .cons k v tl =>
    match dumps v, dumpsEntriesRest tl with
    | some t, some ts => some (44 :: 32 :: dumpKey k ++ 58 :: 32 :: t ++ ts)
    | _, _ => none
end

/-- Whitespace accepted between JSON tokens by the decoder. -/
def isWsCode (c : Nat) : Bool := decide (c = 32 ∨ c = 9 ∨ c = 10 ∨ c = 13)

/-- Drop leading JSON whitespace. -/
def skipWs : List Nat → List Nat
  | [] => []
  | c :: rest => if isWsCode c then skipWs rest else c :: rest

/-- Value of one hex digit code point (both cases accepted). -/
def parseHexDigit (c : Nat) : Option Nat :=
  if 48 ≤ c ∧ c ≤ 57 then some (c - 48)
  else if 97 ≤ c ∧ c ≤ 102 then some (c - 87)
  else if 65 ≤ c ∧ c ≤ 70 then some (c - 55)
  else none

/-- Value of a `\uXXXX` escape's four hex digits. -/
def parseHex4 (a b c d : Nat) : Option Nat :=
  match parseHexDigit a, parseHexDigit b, parseHexDigit c, parseHexDigit d with
  | some ha, some hb, some hc, some hd => some (ha * 4096 + hb * 256 + hc * 16 + hd)
  | _, _, _, _ => none

/-- Prepend one decoded character to a string-parse result. -/
def pcons (c : Nat) : Option (List Nat × List Nat) → Option (List Nat × List Nat)
  | some (s, r) => some (c :: s, r)
  | none => none

/-- Decoding of one escape sequence, the part after the backslash: the
named escapes, a hex escape, and a high-surrogate hex escape followed
immediately by a low one combined into one character (a lone surrogate
escape stays as it is, as `json.loads` leaves it).  Returns the decoded
character and the rest of the input. -/
def unescape : List Nat → Option (Nat × List Nat)
  | [] => none
  | e :: rest1 =>
    if e = 34 then some (34, rest1)
    else if e = 92 then some (92, rest1)
    else if e = 47 then some (47, rest1)
    else if e = 98 then some (8, rest1)
    else if e = 102 then some (12, rest1)
    else if e = 110 then some (10, rest1)
    else if e = 114 then some (13, rest1)
    else if e = 116 then some (9, rest1)
    else if e = 117 then
      match rest1 with
      | a :: b :: c2 :: d :: rest2 =>
        match parseHex4 a b c2 d with
        | some u =>
          if 55296 ≤ u ∧ u < 56320 then
            match rest2 with
            | x :: y :: a2 :: b2 :: c3 :: d2 :: rest3 =>
              if x = 92 ∧ y = 117 then
                match parseHex4 a2 b2 c3 d2 with
                | some u2 =>
                  if 56320 ≤ u2 ∧ u2 < 57344 then
                    some (65536 + (u - 55296) * 1024 + (u2 - 56320), rest3)
                  else some (u, rest2)
                | none => some (u, rest2)
              else some (u, rest2)
            | _ => some (u, rest2)
          else some (u, rest2)
        | none => none
      | _ => none
    else none

/-- Decoder of a JSON string body (after the opening quote), as `json.loads`
does it in strict mode: literal characters from code 32 up, and escape
sequences via `unescape`.  The fuel argument makes the recursion
structural; one unit per decoded character suffices, callers pass the
input length plus one. -/
def parseStringBody : Nat → List Nat → Option (List Nat × List Nat)
  | 0, _ => none
  | _ + 1, [] => none
  | f + 1, c :: rest =>
    if c = 34 then some ([], rest)
    else if c = 92 then
      match unescape rest with
      | some (u, r) => pcons u (parseStringBody f r)
      | none => none
    else if 32 ≤ c then pcons c (parseStringBody f rest)
    else none

/-- Decimal digit run folded onto an accumulator; stops at the first
non-digit code point. -/
def parseDigits : List Nat → Nat → Nat × List Nat
  | [], acc => (acc, [])
  | c :: rest, acc =>
    if 48 ≤ c ∧ c ≤ 57 then parseDigits rest (acc * 10 + (c - 48))
    else (acc, c :: rest)

/-- Decoder of an unsigned JSON integer: at least one digit, and a leading
zero only for the number zero itself. -/
def parseNat1 : List Nat → Option (Nat × List Nat)
  | [] => none
  | c :: rest =>
    if c = 48 then
      match rest with
      | [] => some (0, [])
      | d :: _ => if 48 ≤ d ∧ d ≤ 57 then none else some (0, rest)
    else if 48 ≤ c ∧ c ≤ 57 then some (parseDigits rest (c - 48))
    else none

/-- True when the input continues with a fraction or exponent mark, i.e.
the number being decoded is a float, which is outside the embedded
fragment (the encoder under verification never writes one). -/
def floatFollows : List Nat → Bool
  | [] => false
  | c :: _ => decide (c = 46 ∨ c = 101 ∨ c = 69)

mutual
/-- The JSON decoder applied at read time (`json.loads`), restricted to
the fragment without floats and the literals Infinity/NaN: strings,
integers, true/false/null, arrays and objects, with arbitrary whitespace
between tokens.  The fuel argument makes the nesting recursion
structural; one unit per value or element step suffices, and the top
entry point passes the input length plus one. -/
def parseValue : Nat → List Nat → Option (PyVal × List Nat)
  | 0, _ => none
  | f + 1, s =>
    match skipWs s with
    | [] => none
    | c :: rest =>
      if c = 34 then
        match parseStringBody (rest.length + 1) rest with
        | some (str, r) => some (.str str, r)
        | none => none
      else if c = 110 then
        match rest with
        | 117 :: 108 :: 108 :: r => some (.null, r)
        | _ => none
      else if c = 116 then
        match rest with
        | 114 :: 117 :: 101 :: r => some (.bool true, r)
        | _ => none
      else if c = 102 then
        match rest with
        | 97 :: 108 :: 115 :: 101 :: r => some (.bool false, r)
        | _ => none
      else if c = 45 then
        match parseNat1 rest with
        | some (n, r) => if floatFollows r then none else some (.int (-(n : Int)), r)
        | none => none
      else if 48 ≤ c ∧ c ≤ 57 then
        match parseNat1 (c :: rest) with
        | some (n, r) => if floatFollows r then none else some (.int (n : Int), r)
        | none => none
      else if c = 91 then
        match parseListBody f rest with
        | some (xs, r) => some (.list xs, r)
        | none => none
      else if c = 123 then
        match parseDictBody f rest with
        | some (es, r) => some (.dict es, r)
        | none => none
      else none
/-- Decoder state just after `[`: either `]` or a first element followed
by `parseItemsRest`. -/
def parseListBody : Nat → List Nat → Option (PyList × List Nat)
  | 0, _ => none
  | f + 1, s =>
    match skipWs s with
    | [] => none
    | c :: rest =>
      if c = 93 then some (.nil, rest)
      else
        match parseValue f (c :: rest) with
        | some (v, r) =>
          match parseItemsRest f r with
          | some (tl, r2) => some (.cons v tl, r2)
          | none => none
        | none => none
/-- Decoder state after an array element: either `]` or `,` and a further
element. -/
def parseItemsRest : Nat → List Nat → Option (PyList × List Nat)
  | 0, _ => none
  | f + 1, s =>
    match skipWs s with
    | [] => none
    | c :: rest =>
      if c = 93 then some (.nil, rest)
      else if c = 44 then
        match parseValue f rest with
        | some (v, r) =>
          match parseItemsRest f r with
          | some (tl, r2) => some (.cons v tl, r2)
          | none => none
        | none => none
      else none
/-- Decoder state just after `{`: either `}` or a first key/value pair
followed by `parseDictRest`.  JSON object keys are strings. -/
def parseDictBody : Nat → List Nat → Option (PyDict × List Nat)
  | 0, _ => none
  | f + 1, s =>
    match skipWs s with
    | [] => none
    | c :: rest =>
      if c = 125 then some (.nil, rest)
      else if c = 34 then
        match parseStringBody (rest.length + 1) rest with
        | some (k, r) =>
          match skipWs r with
          | 58 :: r2 =>
            match parseValue f r2 with
            | some (v, r3) =>
              match parseDictRest f r3 with
              | some (tl, r4) => some (.cons (.kstr k) v tl, r4)
              | none => none
            | none => none
          | _ => none
        | none => none
      else none
/-- Decoder state after an object entry: either `}` or `,` and a further
key/value pair. -/
def parseDictRest : Nat → List Nat → Option (PyDict × List Nat)
  | 0, _ => none
  | f + 1, s =>
    match skipWs s with
    | [] => none
    | c :: rest =>
      if c = 125 then some (.nil, rest)
      else if c = 44 then
        match skipWs rest with
        | 34 :: r =>
          match parseStringBody (r.length + 1) r with
          | some (k, r1) =>
            match skipWs r1 with
            | 58 :: r2 =>
              match parseValue f r2 with
              | some (v, r3) =>
                match parseDictRest f r3 with
                | some (tl, r4) => some (.cons (.kstr k) v tl, r4)
                | none => none
              | none => none
            | _ => none
          | none => none
        | _ => none
      else none
end

/-- The full decoder: one JSON value and nothing but whitespace after it,
as `json.loads` demands ("Extra data" otherwise). -/
def loads (s : List Nat) : Option PyVal :=
  match parseValue (s.length + 1) s with
  | some (v, rest) => if skipWs rest = [] then some v else none
  | none => none

/-- Write-then-read composition for a plan value: the JSON text stored in
the `plan_json` column at save time, decoded again at read time. -/
def roundTrip (v : PyVal) : Option PyVal :=
  match dumps v with
  | some t => loads t
  | none => none

/-- One row of the `rehab_plans` table, mirroring the columns of the
`RehabPlan` ORM model.  `plan_json` holds the serialized plan text as
code points; `created_at` is the timestamp the ORM default assigned at
insert time; nullable columns that the code can leave unset are `Option`. -/
structure RehabPlan where
  id : Nat
  patient_age : String
  patient_gender : String
  surgery_date : String
  conditions : String
  additional_notes : String
  procedure_identified : String
  days_post_op : Int
  plan_json : List Nat
  created_at : Nat
  file_name : Option String
deriving DecidableEq

/-- The `patient_info` dict as `save_plan` reads it: four keys looked up
with `.get` and a default, so each is either present or absent. -/
structure PatientInfo where
  age : Option String
  gender : Option String
  surgeryDate : Option String
  conditions : Option String

/-- The durable state: the rows of the single table. -/
structure DBState where
  plans : List RehabPlan
deriving DecidableEq

/-- Largest id among a list of rows (0 when empty). -/
def maxIdList (l : List RehabPlan) : Nat := l.foldr (fun r m => max r.id m) 0

/-- The rowid SQLite assigns to the inserted row of a table with an
integer primary key and no deletes: one more than the largest existing
rowid, hence 1 on an empty table. -/
def nextId (s : DBState) : Nat := maxIdList s.plans + 1

/-- `save_plan`: serialize the plan, build the row from the arguments with
the same defaults as the code (`patient_info.get` with 'N/A' or '',
`notes or ''`), and insert it.  The whole body runs inside try/except:
a serialization error (`dumps` = none) or a storage failure during the
insert (`storageOk` = false) is caught, the transaction is rolled back
and the sentinel None is returned, so the state is unchanged; on success
the commit appends exactly one row and the new id is returned.  `now` is
the clock value the ORM's `created_at` default reads at insert time. -/
def save_plan (s : DBState) (patient_info : PatientInfo) (procedure : String)
    (days_post_op : Int) (plan : PyVal) (file_name : Option String)
    (notes : Option String) (storageOk : Bool) (now : Nat) : Option Nat × DBState :=
  match dumps plan with
  | none => (none, s)
  | some payload =>
    if storageOk then
      (some (nextId s),
        ⟨s.plans ++ [{
          id := nextId s
          patient_age := patient_info.age.getD "N/A"
          patient_gender := patient_info.gender.getD "N/A"
          surgery_date := patient_info.surgeryDate.getD ""
          conditions := patient_info.conditions.getD ""
          additional_notes := notes.getD ""
          procedure_identified := procedure
          days_post_op := days_post_op
          plan_json := payload
          created_at := now
          file_name := file_name }]⟩)
    else (none, s)

/-- `get_all_plans`: every stored row, in storage order.  Read-only. -/
def get_all_plans (s : DBState) : List RehabPlan := s.plans

/-- `get_plan_by_id`: `.filter(RehabPlan.id == plan_id).first()` — the
first row with the given id, or None when there is none.  Read-only. -/
def get_plan_by_id (s : DBState) (plan_id : Nat) : Option RehabPlan :=
  s.plans.find? (fun r => r.id == plan_id)

/-- Whitespace skipped by SQLite ahead of a numeric text value. -/
def isSqlSpace (c : Char) : Bool := decide (c.toNat = 32 ∨ (9 ≤ c.toNat ∧ c.toNat ≤ 13))

/-- Drop leading SQLite whitespace. -/
def skipSpaces : List Char → List Char
  | [] => []
  | c :: rest => if isSqlSpace c then skipSpaces rest else c :: rest

/-- Digit run folded onto an accumulated value, also counting the digits
consumed. -/
def digitsVal : List Char → Nat → Nat → Nat × Nat × List Char
  | [], acc, cnt => (acc, cnt, [])
  | c :: rest, acc, cnt =>
    if c.isDigit then digitsVal rest (acc * 10 + (c.toNat - 48)) (cnt + 1)
    else (acc, cnt, c :: rest)

/-- Exponent part of a SQLite numeric text, if one is present: `e` or `E`,
an optional sign, and at least one digit; otherwise nothing is consumed. -/
def parseExpPart : List Char → Int × List Char
  | [] => (0, [])
  | c :: rest =>
    if c = 'e' ∨ c = 'E' then
      match rest with
      | [] => (0, c :: rest)
      | d :: rest2 =>
        if d.isDigit then
          let (v, _, r) := digitsVal (d :: rest2) 0 0
          ((v : Int), r)
        else if d = '-' then
          match rest2 with
          | [] => (0, c :: rest)
          | d2 :: _ =>
            if d2.isDigit then
              let (v, _, r) := digitsVal rest2 0 0
              (-(v : Int), r)
            else (0, c :: rest)
        else if d = '+' then
          match rest2 with
          | [] => (0, c :: rest)
          | d2 :: _ =>
            if d2.isDigit then
              let (v, _, r) := digitsVal rest2 0 0
              ((v : Int), r)
            else (0, c :: rest)
        else (0, c :: rest)
    else (0, c :: rest)

/-- The longest leading numeric segment of a text value, as SQLite's
text-to-number conversion reads it for `sum`/`avg`: optional leading
whitespace, optional sign, digits with an optional decimal point and an
optional exponent, requiring at least one digit; `none` when the text
does not start with a number.  The value is exact rational where the
engine would use floating point. -/
def sqliteNumParse (s : List Char) : Option (Rat × List Char) :=
  let s1 := skipSpaces s
  let signAndRest : Bool × List Char :=
    match s1 with
    | [] => (false, [])
    | c :: r => if c = '-' then (true, r) else if c = '+' then (false, r) else (false, s1)
  let neg := signAndRest.1
  let (ip, n1, s3) := digitsVal signAndRest.2 0 0
  let fracAndRest : Nat × Nat × List Char :=
    match s3 with
    | [] => (0, 0, [])
    | c :: r => if c = '.' then digitsVal r 0 0 else (0, 0, s3)
  let (fp, n2, s4) := fracAndRest
  if n1 + n2 = 0 then none
  else
    let (ex, s5) := parseExpPart s4
    let base : Rat := (ip : Rat) + (fp : Rat) / ((10 : Rat) ^ n2)
    let signed : Rat := if neg then -base else base
    let scaled : Rat :=
      if 0 ≤ ex then signed * (10 : Rat) ^ ex.toNat else signed / (10 : Rat) ^ (-ex).toNat
    some (scaled, s5)

/-- Numeric value SQLite's `avg` gives a TEXT cell: the value of its
longest leading numeric segment, or 0 when there is none. -/
def sqliteNum (s : String) : Rat :=
  match sqliteNumParse s.data with
  | some (v, _) => v
  | none => 0

/-- A text value that is one number and nothing else, the reading under
which averaging age strings is meaningful at all. -/
def numericFull (s : String) : Option Rat :=
  match sqliteNumParse s.data with
  | some (v, r) => if r = [] then some v else none
  | none => none

/-- The distinct values of a list, first occurrences kept. -/
def dedupKeys : List String → List String
  | [] => []
  | x :: xs => x :: (dedupKeys xs).filter (fun y => y ≠ x)

/-- The GROUP BY result `dict(procedures)` is built from: each distinct
`procedure_identified` value with the count of rows bearing it. -/
def groupCounts (xs : List String) : List (String × Nat) :=
  (dedupKeys xs).map (fun k => (k, xs.count k))

/-- The dictionary `get_stats` returns. -/
structure StatsSummary where
  total_plans : Nat
  procedures : List (String × Nat)
  average_age : Option Rat
deriving DecidableEq

/-- `get_stats`: row count, per-procedure counts from the GROUP BY query,
and `func.avg(RehabPlan.patient_age)`, which SQLite computes over the
TEXT column by coercing every non-NULL cell to a number (0 for
non-numeric text) and dividing by the row count; NULL — `none` — on an
empty table. -/
def get_stats (s : DBState) : StatsSummary :=
  { total_plans := s.plans.length
    procedures := groupCounts (s.plans.map (fun r => r.procedure_identified))
    average_age :=
      match s.plans with
      | [] => none
      | _ => some ((s.plans.map (fun r => sqliteNum r.patient_age)).sum / (s.plans.length : Rat)) }

/-- The spec's other candidate reading of `averageAge` (its option (b)):
the arithmetic mean of those stored `patientAge` strings that are fully
numeric, ignoring the rest; absent when no value is numeric.  The claim
that `averageAge` is "the arithmetic mean of the patientAge values" is
compared against this below. -/
def specAverageAge (s : DBState) : Option Rat :=
  let vals := s.plans.filterMap (fun r => numericFull r.patient_age)
  match vals with
  | [] => none
  | _ => some (vals.sum / (vals.length : Rat))

/-- One call against the store.  The three read operations do not change
the stored rows (the code only queries inside them), so they are
identities on the state; `save_plan` contributes its updated state. -/
inductive DBOp where
  | opSave (patient_info : PatientInfo) (procedure : String) (days_post_op : Int)
      (plan : PyVal) (file_name : Option String) (notes : Option String)
      (storageOk : Bool) (now : Nat)
  | opGetAll
  | opGetById (plan_id : Nat)
  | opGetStats

/-- State transition of one call. -/
def applyOp (s : DBState) : DBOp → DBState
  | .opSave pi pr d pl fn nt ok now => (save_plan s pi pr d pl fn nt ok now).2
  | .opGetAll => s
  | .opGetById _ => s
  | .opGetStats => s

/-- State after a sequence of calls. -/
def runOps (s : DBState) (ops : List DBOp) : DBState := ops.foldl applyOp s

/-- Argument bundle for one `save_plan` call. -/
structure SaveArgs where
  patient_info : PatientInfo
  procedure : String
  days_post_op : Int
  plan : PyVal
  file_name : Option String
  notes : Option String
  storageOk : Bool
  now : Nat

/-- A sequence of `save_plan` calls: the returned values in order, and the
final state. -/
def runSaves (s : DBState) : List SaveArgs → List (Option Nat) × DBState
  | [] => ([], s)
  | a :: rest =>
    let step := save_plan s a.patient_info a.procedure a.days_post_op a.plan
      a.file_name a.notes a.storageOk a.now
    let further := runSaves step.2 rest
    (step.1 :: further.1, further.2)

/-- The input continues (if at all) with something that ends a JSON number:
no digit and no fraction or exponent mark.  Inside encoder output a number
is always followed by a separator, a closing bracket or the end. -/
def numBoundary : List Nat → Prop
  | [] => True
  | c :: _ => ¬(48 ≤ c ∧ c ≤ 57) ∧ c ≠ 46 ∧ c ≠ 101 ∧ c ≠ 69

/-- The input does not continue with a digit. -/
def notDigitAt : List Nat → Prop
  | [] => True
  | c :: _ => ¬(48 ≤ c ∧ c ≤ 57)

/-- Decimal digit codes folded into a value, the way `parseDigits` reads. -/
def digitFold (acc : Nat) (ds : List Nat) : Nat :=
  ds.foldl (fun a d => a * 10 + (d - 48)) acc

/-- A code point a well-formed Python string may carry here: a Unicode
scalar value, i.e. below the surrogate range or past it.  (Python's `str`
also admits lone surrogates; those are excluded from the round-trip
fragment because a high/low pair of them is re-combined by the decoder.) -/
def goodChar (c : Nat) : Prop := c < 55296 ∨ (57344 ≤ c ∧ c < 1114112)

/-- First code point of any encoder output token: quote, minus, digit,
`n`/`t`/`f` of a keyword, or an opening bracket. -/
def tokenHead (h : Nat) : Prop :=
  h = 34 ∨ h = 45 ∨ (48 ≤ h ∧ h ≤ 57) ∨ h = 110 ∨ h = 116 ∨ h = 102 ∨ h = 91 ∨ h = 123

mutual
/-- Fuel that surely lets `parseValue` decode the encoder output of a
value: one unit per value plus one per bracket step. -/
def needV : PyVal → Nat
  | .list xs => 1 + needItems xs
  | .tuple xs => 1 + needItems xs
  | .dict es => 1 + needEntries es
  | _ => 1
def needItems : PyList → Nat
  | .nil => 1
  | .cons v tl => 1 + max (needV v) (needItems tl)
def needEntries : PyDict → Nat
  | .nil => 1
  | .cons _ v tl => 1 + max (needV v) (needEntries tl)
end

/-- Decidable form of `goodChar`. -/
def goodCharB (c : Nat) : Bool := decide (c < 55296 ∨ (57344 ≤ c ∧ c < 1114112))

/-- All characters of the string are Unicode scalar values. -/
def goodStrB (s : List Nat) : Bool := s.all goodCharB

mutual
/-- The JSON-faithful fragment of Python values: no tuples (they come back
as lists), no unserializable objects, dict keys actual strings (other
keys come back as their string forms), and strings made of Unicode
scalar values (a high/low pair of lone surrogates would be re-combined
by the decoder). -/
def safeV : PyVal → Bool
  | .null => true
  | .bool _ => true
  | .int _ => true
  | .str s => goodStrB s
  | .list xs => safeL xs
  | .tuple _ => false
  | .dict es => safeD es
  | .obj => false
def safeL : PyList → Bool
  | .nil => true
  | .cons v tl => safeV v && safeL tl
def safeD : PyDict → Bool
  | .nil => true
  | .cons k v tl =>
    (match k with
      | .kstr s => goodStrB s
      | _ => false) && safeV v && safeD tl
end

/-- Sample patient-info dict used in the concrete witnesses. -/
def wPI : PatientInfo := ⟨some "34", some "F", some "2024-02-02", some "none"⟩

/-- Argument bundles for two successful saves on a fresh store. -/
def wArgs : List SaveArgs :=
  [⟨wPI, "ACL Reconstruction", 10, .null, none, none, true, 100⟩,
   ⟨wPI, "Total Knee Replacement", 5, .null, none, none, true, 101⟩]

/-- A one-row store used by the getById witness. -/
def wRec : RehabPlan :=
  ⟨1, "34", "F", "2024-02-02", "none", "", "ACL Reconstruction", 14, sLit "null", 500, none⟩

/-- The row a successful save on the empty store appends, for the witness. -/
def wRecC9 : RehabPlan :=
  ⟨1, "34", "F", "2024-02-02", "none", "", "ACL Reconstruction", 10, sLit "null", 100, none⟩

/-- Three saves with procedures A, A, B on a fresh store. -/
def procArgs : List SaveArgs :=
  [⟨wPI, "A", 1, .null, none, none, true, 1⟩,
   ⟨wPI, "A", 2, .null, none, none, true, 2⟩,
   ⟨wPI, "B", 3, .null, none, none, true, 3⟩]

/-- The store after the A, A, B saves. -/
def wABdb : DBState := (runSaves ⟨[]⟩ procArgs).2

/-- An all-numeric-ages store for the averageAge witness. -/
def wAgeDb : DBState :=
  ⟨[⟨1, "30", "M", "", "", "", "ACL Reconstruction", 1, sLit "null", 10, none⟩,
    ⟨2, "40", "F", "", "", "", "ACL Reconstruction", 2, sLit "null", 11, none⟩]⟩

/-- Two saves, one with patientAge "5" and one with the age key missing so
that the stored value is the free-form default string, exhibiting the
coercion mismatch. -/
def ageArgs : List SaveArgs :=
  [⟨⟨some "5", some "M", some "2024-01-01", none⟩, "ACL Reconstruction", 10,
    .null, none, none, true, 100⟩,
   ⟨⟨none, none, none, none⟩, "ACL Reconstruction", 12, .null, none, none, true, 101⟩]

/-- The store those two saves produce. -/
def c3db : DBState := (runSaves ⟨[]⟩ ageArgs).2

/-- A JSON-faithful plan value exercising a nested dict, list, negative
int, bool, and a string with a non-ASCII and an astral character. -/
def wSafePlan : PyVal :=
  .dict (.cons (.kstr [101, 120])
    (.list (.cons (.int (-7)) (.cons (.str [233, 128512]) (.cons (.bool true) .nil))))
    .nil)

example : dumps (.dict (.cons (.kint 1) (.str [120]) .nil)) =
    some [123, 34, 49, 34, 58, 32, 34, 120, 34, 125] := rfl

example : dumps (.list (.cons (.int (-3)) (.cons .null .nil))) =
    some [91, 45, 51, 44, 32, 110, 117, 108, 108, 93] := rfl

example : dumps (.list (.cons .obj .nil)) = none := rfl

example : roundTrip (.list (.cons (.int (-3)) (.cons .null .nil))) =
    some (.list (.cons (.int (-3)) (.cons .null .nil))) := rfl

example : roundTrip (.dict (.cons (.kint 1) (.str [120]) .nil)) =
    some (.dict (.cons (.kstr [49]) (.str [120]) .nil)) := rfl

example : roundTrip (.str [97, 10, 128512, 233]) = some (.str [97, 10, 128512, 233]) := rfl

example : sqliteNum "25" = 25 := by
  simp [sqliteNum, sqliteNumParse, skipSpaces, digitsVal, parseExpPart, isSqlSpace]

example : sqliteNum "N/A" = 0 := by decide

example : sqliteNum " -2.5e1" = -25 := by
  simp [sqliteNum, sqliteNumParse, skipSpaces, digitsVal, parseExpPart, isSqlSpace]
  norm_num

example : sqliteNum "31abc" = 31 := by
  simp [sqliteNum, sqliteNumParse, skipSpaces, digitsVal, parseExpPart, isSqlSpace]

example : numericFull "31abc" = none := by decide

theorem numBoundary_notDigitAt : ∀ s, numBoundary s → notDigitAt s
  | [], _ => trivial
  | _ :: _, h => h.1

theorem floatFollows_eq_false : ∀ s, numBoundary s → floatFollows s = false
  | [], _ => rfl
  | c :: r, h => by
    simp only [floatFollows, decide_eq_false_iff_not]
    rintro (h46 | h101 | h69)
    · exact h.2.1 h46
    · exact h.2.2.1 h101
    · exact h.2.2.2 h69

theorem natDecAux_mem_digit : ∀ f n, n < f → ∀ c ∈ natDecAux f n, 48 ≤ c ∧ c ≤ 57 := by
  intro f
  induction f with
  | zero => omega
  | succ f ih =>
    intro n hn c hc
    by_cases h10 : n < 10
    · simp [natDecAux, h10] at hc
      omega
    · simp only [natDecAux, if_neg h10, List.mem_append, List.mem_singleton] at hc
      rcases hc with hc | hc
      · exact ih (n / 10) (by omega) c hc
      · omega

theorem natDecAux_head_pos : ∀ f n, 0 < n → n < f →
    ∃ c ds, natDecAux f n = c :: ds ∧ 49 ≤ c ∧ c ≤ 57 := by
  intro f
  induction f with
  | zero => omega
  | succ f ih =>
    intro n hpos hn
    by_cases h10 : n < 10
    · exact ⟨48 + n, [], by simp [natDecAux, h10], by omega, by omega⟩
    · obtain ⟨c, ds, heq, hc1, hc2⟩ := ih (n / 10) (by omega) (by omega)
      exact ⟨c, ds ++ [48 + n % 10], by simp [natDecAux, if_neg h10, heq], hc1, hc2⟩

theorem parseDigits_append : ∀ ds, (∀ c ∈ ds, 48 ≤ c ∧ c ≤ 57) → ∀ rest, notDigitAt rest →
    ∀ acc, parseDigits (ds ++ rest) acc = (digitFold acc ds, rest) := by
  intro ds
  induction ds with
  | nil =>
    intro _ rest hr acc
    cases rest with
    | nil => rfl
    | cons c r =>
      simp only [List.nil_append, parseDigits, digitFold, List.foldl_nil]
      rw [if_neg hr]
  | cons d ds ih =>
    intro hd rest hr acc
    have hdig : 48 ≤ d ∧ d ≤ 57 := hd d (List.mem_cons_self d ds)
    have hih := ih (fun c hc => hd c (List.mem_cons_of_mem d hc)) rest hr (acc * 10 + (d - 48))
    simp only [List.cons_append, parseDigits, if_pos hdig, List.append_eq] at hih ⊢
    rw [hih]
    simp [digitFold]

theorem digitFold_natDecAux : ∀ f n acc, n < f →
    digitFold acc (natDecAux f n) = acc * 10 ^ (natDecAux f n).length + n := by
  intro f
  induction f with
  | zero => omega
  | succ f ih =>
    intro n acc hn
    by_cases h10 : n < 10
    · simp only [natDecAux, if_pos h10, digitFold, List.foldl_cons, List.foldl_nil,
        List.length_singleton, pow_one]
      omega
    · simp only [natDecAux, if_neg h10, digitFold, List.foldl_append, List.foldl_cons,
        List.foldl_nil, List.length_append, List.length_cons, List.length_nil]
      have hrec := ih (n / 10) acc (by omega)
      simp only [digitFold] at hrec
      rw [hrec]
      have hdm : n / 10 * 10 + n % 10 = n := by omega
      calc (acc * 10 ^ (natDecAux f (n / 10)).length + n / 10) * 10 + (48 + n % 10 - 48)
          = acc * 10 ^ ((natDecAux f (n / 10)).length + 1) + (n / 10 * 10 + (48 + n % 10 - 48)) := by
            rw [pow_succ]; ring
        _ = acc * 10 ^ ((natDecAux f (n / 10)).length + 0 + 1) + n := by
            simp; omega

theorem parseNat1_natDecimal (n : Nat) (rest : List Nat) (hr : notDigitAt rest) :
    parseNat1 (natDecimal n ++ rest) = some (n, rest) := by
  by_cases hz : n = 0
  · subst hz
    show parseNat1 (48 :: rest) = some (0, rest)
    cases rest with
    | nil => rfl
    | cons c r =>
      have hc : ¬(48 ≤ c ∧ c ≤ 57) := hr
      simp [parseNat1, hc]
  · obtain ⟨c, ds, heq, hc1, hc2⟩ := natDecAux_head_pos (n + 1) n (by omega) (by omega)
    have hdig : ∀ x ∈ natDecAux (n + 1) n, 48 ≤ x ∧ x ≤ 57 :=
      natDecAux_mem_digit (n + 1) n (by omega)
    have hfold := digitFold_natDecAux (n + 1) n 0 (by omega)
    rw [heq] at hfold hdig
    have hfold2 : digitFold (c - 48) ds = n := by
      have h0 : digitFold 0 (c :: ds) = digitFold (c - 48) ds := by
        simp [digitFold]
      rw [h0] at hfold
      simpa using hfold
    simp only [natDecimal]
    rw [heq]
    simp only [List.cons_append, parseNat1]
    rw [if_neg (by omega : ¬c = 48), if_pos (show 48 ≤ c ∧ c ≤ 57 by omega)]
    rw [parseDigits_append ds (fun x hx => hdig x (List.mem_cons_of_mem c hx)) rest hr]
    rw [hfold2]

example : parseNat1 (natDecimal 907 ++ [44]) = some (907, [44]) :=
  parseNat1_natDecimal 907 [44] (by simp [notDigitAt])

theorem parseHexDigit_hexDigit (d : Nat) (hd : d < 16) :
    parseHexDigit (hexDigit d) = some d := by
  interval_cases d <;> rfl

theorem parseHex4_hex4 (n : Nat) (hn : n < 65536) :
    parseHex4 (hexDigit (n / 4096 % 16)) (hexDigit (n / 256 % 16))
      (hexDigit (n / 16 % 16)) (hexDigit (n % 16)) = some n := by
  have h1 := parseHexDigit_hexDigit (n / 4096 % 16) (by omega)
  have h2 := parseHexDigit_hexDigit (n / 256 % 16) (by omega)
  have h3 := parseHexDigit_hexDigit (n / 16 % 16) (by omega)
  have h4 := parseHexDigit_hexDigit (n % 16) (by omega)
  simp only [parseHex4, h1, h2, h3, h4]
  congr 1
  omega

set_option maxHeartbeats 1000000 in
theorem escapeChar_length_pos (c : Nat) : 1 ≤ (escapeChar c).length := by
  unfold escapeChar
  split_ifs <;> simp [hex4]

theorem length_le_flatten_escape : ∀ s : List Nat,
    s.length ≤ ((s.map escapeChar).flatten).length := by
  intro s
  induction s with
  | nil => simp
  | cons c s ih =>
    simp only [List.map_cons, List.flatten_cons, List.length_append, List.length_cons]
    have := escapeChar_length_pos c
    omega

theorem unescape_pair_digits (h1 h2 h3 h4 g1 g2 g3 g4 hi lo : Nat) (rest : List Nat)
    (hhi : parseHex4 h1 h2 h3 h4 = some hi)
    (hlo : parseHex4 g1 g2 g3 g4 = some lo)
    (hhis : 55296 ≤ hi ∧ hi < 56320) (hlos : 56320 ≤ lo ∧ lo < 57344) :
    unescape (117 :: h1 :: h2 :: h3 :: h4 :: 92 :: 117 :: g1 :: g2 :: g3 :: g4 :: rest) =
      some (65536 + (hi - 55296) * 1024 + (lo - 56320), rest) := by
  simp [unescape, hhi, hlo, hhis, hlos]

theorem unescape_pair (hi lo : Nat) (hhi16 : hi < 65536) (hlo16 : lo < 65536)
    (hhis : 55296 ≤ hi ∧ hi < 56320) (hlos : 56320 ≤ lo ∧ lo < 57344) (rest : List Nat) :
    unescape ((117 :: hex4 hi ++ 92 :: 117 :: hex4 lo) ++ rest) =
      some (65536 + (hi - 55296) * 1024 + (lo - 56320), rest) := by
  have e : (117 :: hex4 hi ++ 92 :: 117 :: hex4 lo) ++ rest =
      117 :: hexDigit (hi / 4096 % 16) :: hexDigit (hi / 256 % 16) ::
      hexDigit (hi / 16 % 16) :: hexDigit (hi % 16) ::
      92 :: 117 :: hexDigit (lo / 4096 % 16) :: hexDigit (lo / 256 % 16) ::
      hexDigit (lo / 16 % 16) :: hexDigit (lo % 16) :: rest := by
    simp [hex4]
  rw [e]
  exact unescape_pair_digits _ _ _ _ _ _ _ _ hi lo rest
    (parseHex4_hex4 hi hhi16) (parseHex4_hex4 lo hlo16) hhis hlos

theorem escapeChar_cases (c : Nat) (hc : goodChar c) (rest : List Nat) :
    (escapeChar c = [c] ∧ 32 ≤ c ∧ c ≠ 34 ∧ c ≠ 92) ∨
    (∃ esc, escapeChar c = 92 :: esc ∧ unescape (esc ++ rest) = some (c, rest)) := by
  by_cases h34 : c = 34
  · subst h34; exact Or.inr ⟨[34], rfl, rfl⟩
  by_cases h92 : c = 92
  · subst h92; exact Or.inr ⟨[92], rfl, rfl⟩
  by_cases h8 : c = 8
  · subst h8; exact Or.inr ⟨[98], rfl, rfl⟩
  by_cases h9 : c = 9
  · subst h9; exact Or.inr ⟨[116], rfl, rfl⟩
  by_cases h10 : c = 10
  · subst h10; exact Or.inr ⟨[110], rfl, rfl⟩
  by_cases h12 : c = 12
  · subst h12; exact Or.inr ⟨[102], rfl, rfl⟩
  by_cases h13 : c = 13
  · subst h13; exact Or.inr ⟨[114], rfl, rfl⟩
  by_cases hctl : c < 32
  · refine Or.inr ⟨117 :: hex4 c, ?_, ?_⟩
    · simp [escapeChar, h34, h92, h8, h9, h10, h12, h13, hctl]
    · have hx := parseHex4_hex4 c (by omega)
      have hns : ¬(55296 ≤ c ∧ c < 56320) := by omega
      simp [hex4, unescape, hx, hns]
  by_cases hasc : c ≤ 126
  · exact Or.inl ⟨by simp [escapeChar, h34, h92, h8, h9, h10, h12, h13, hctl, hasc],
      by omega, h34, h92⟩
  by_cases hbmp : c ≤ 65535
  · refine Or.inr ⟨117 :: hex4 c, ?_, ?_⟩
    · simp [escapeChar, h34, h92, h8, h9, h10, h12, h13, hctl, hasc, hbmp]
    · have hx := parseHex4_hex4 c (by omega)
      have hns : ¬(55296 ≤ c ∧ c < 56320) := by
        rcases hc with h | h <;> omega
      simp [hex4, unescape, hx, hns]
  · have hlt : c < 1114112 := by rcases hc with h | h <;> omega
    refine Or.inr ⟨117 :: hex4 (55296 + (c - 65536) / 1024) ++
      92 :: 117 :: hex4 (56320 + (c - 65536) % 1024), ?_, ?_⟩
    · simp [escapeChar, h34, h92, h8, h9, h10, h12, h13, hctl, hasc, hbmp]
    · have hhibound : (c - 65536) / 1024 < 1024 := by omega
      rw [unescape_pair (55296 + (c - 65536) / 1024) (56320 + (c - 65536) % 1024)
        (by omega) (by omega) (by omega) (by omega) rest]
      rw [show 65536 + (55296 + (c - 65536) / 1024 - 55296) * 1024 +
        (56320 + (c - 65536) % 1024 - 56320) = c from by omega]

theorem parseStringBody_escapeChar (c : Nat) (hc : goodChar c) (f : Nat) (rest : List Nat) :
    parseStringBody (f + 1) (escapeChar c ++ rest) = pcons c (parseStringBody f rest) := by
  rcases escapeChar_cases c hc rest with ⟨heq, hge, h34, h92⟩ | ⟨esc, heq, hun⟩
  · rw [heq]
    simp [parseStringBody, h34, h92, hge]
  · rw [heq]
    simp [parseStringBody, hun]

theorem parseStringBody_dumped : ∀ (s : List Nat), (∀ c ∈ s, goodChar c) →
    ∀ f rest, s.length < f →
    parseStringBody f ((s.map escapeChar).flatten ++ 34 :: rest) = some (s, rest) := by
  intro s
  induction s with
  | nil =>
    intro _ f rest hf
    cases f with
    | zero => omega
    | succ f => simp [parseStringBody]
  | cons c s ih =>
    intro hg f rest hf
    cases f with
    | zero => omega
    | succ f =>
      simp only [List.map_cons, List.flatten_cons, List.append_assoc]
      rw [parseStringBody_escapeChar c (hg c (List.mem_cons_self c s)) f]
      rw [ih (fun x hx => hg x (List.mem_cons_of_mem c hx)) f rest (by simpa using hf)]
      rfl

example : parseStringBody 5 ((([97, 128512].map escapeChar).flatten ++ 34 :: [44])) =
    some ([97, 128512], [44]) :=
  parseStringBody_dumped [97, 128512]
    (by intro c hc; fin_cases hc <;> simp [goodChar]) 5 [44] (by simp)

theorem natDecimal_head_digit (n : Nat) :
    ∃ c ds, natDecimal n = c :: ds ∧ 48 ≤ c ∧ c ≤ 57 := by
  by_cases hz : n = 0
  · subst hz; exact ⟨48, [], rfl, by omega, by omega⟩
  · obtain ⟨c, ds, heq, h1, h2⟩ := natDecAux_head_pos (n + 1) n (by omega) (by omega)
    exact ⟨c, ds, heq, by omega, h2⟩

theorem dumps_head : ∀ (v : PyVal) (t : List Nat), dumps v = some t →
    ∃ h t2, t = h :: t2 ∧ tokenHead h := by
  intro v t ht
  cases v with
  | null =>
    simp [dumps, sLit] at ht
    exact ⟨110, _, ht.symm, by unfold tokenHead; omega⟩
  | bool b =>
    cases b with
    | true =>
      simp [dumps, sLit] at ht
      exact ⟨116, _, ht.symm, by unfold tokenHead; omega⟩
    | false =>
      simp [dumps, sLit] at ht
      exact ⟨102, _, ht.symm, by unfold tokenHead; omega⟩
  | int n =>
    simp only [dumps] at ht
    injection ht with ht
    by_cases hneg : n < 0
    · simp only [intDecimal, if_pos hneg] at ht
      exact ⟨45, _, ht.symm, by unfold tokenHead; omega⟩
    · simp only [intDecimal, if_neg hneg] at ht
      obtain ⟨c, ds, heq, h1, h2⟩ := natDecimal_head_digit n.toNat
      exact ⟨c, ds, ht ▸ heq, by unfold tokenHead; omega⟩
  | str s =>
    simp only [dumps, dumpStr] at ht
    injection ht with ht
    exact ⟨34, _, ht.symm, by unfold tokenHead; omega⟩
  | list xs =>
    simp only [dumps] at ht
    cases hx : dumpsItems xs with
    | none => rw [hx] at ht; exact absurd ht (by simp)
    | some ti =>
      rw [hx] at ht
      injection ht with ht
      exact ⟨91, _, ht.symm, by unfold tokenHead; omega⟩
  | tuple xs =>
    simp only [dumps] at ht
    cases hx : dumpsItems xs with
    | none => rw [hx] at ht; exact absurd ht (by simp)
    | some ti =>
      rw [hx] at ht
      injection ht with ht
      exact ⟨91, _, ht.symm, by unfold tokenHead; omega⟩
  | dict es =>
    simp only [dumps] at ht
    cases hx : dumpsEntries es with
    | none => rw [hx] at ht; exact absurd ht (by simp)
    | some ti =>
      rw [hx] at ht
      injection ht with ht
      exact ⟨123, _, ht.symm, by unfold tokenHead; omega⟩
  | obj => exact absurd ht (by simp [dumps])

theorem tokenHead_props (h : Nat) (hh : tokenHead h) :
    isWsCode h = false ∧ h ≠ 93 ∧ h ≠ 125 ∧ h ≠ 44 ∧ h ≠ 58 := by
  unfold tokenHead at hh
  refine ⟨?_, by omega, by omega, by omega, by omega⟩
  simp only [isWsCode, decide_eq_false_iff_not]
  omega

theorem skipWs_not_ws (h : Nat) (t : List Nat) (hh : isWsCode h = false) :
    skipWs (h :: t) = h :: t := by
  simp [skipWs, hh]

theorem parseValue_cons_ws (f : Nat) (c : Nat) (hc : isWsCode c = true) (s : List Nat) :
    parseValue f (c :: s) = parseValue f s := by
  cases f with
  | zero => rfl
  | succ f =>
    show (match skipWs (c :: s) with | [] => _ | c :: rest => _) =
      (match skipWs s with | [] => _ | c :: rest => _)
    rw [show skipWs (c :: s) = skipWs s from by simp [skipWs, hc]]

theorem goodStrB_mem {s : List Nat} (hs : goodStrB s = true) : ∀ c ∈ s, goodChar c := by
  intro c hc
  have := List.all_eq_true.mp hs c hc
  simpa [goodCharB, goodChar, decide_eq_true_iff] using this

theorem dumpsItemsRest_shape : ∀ (tl : PyList) (ts : List Nat), dumpsItemsRest tl = some ts →
    ts = [] ∨ ∃ ts2, ts = 44 :: 32 :: ts2 := by
  intro tl ts ht
  cases tl with
  | nil => simp [dumpsItemsRest] at ht; exact Or.inl ht
  | cons v tl2 =>
    simp only [dumpsItemsRest] at ht
    cases hv : dumps v with
    | none => rw [hv] at ht; exact absurd ht (by simp)
    | some tv =>
      cases hr : dumpsItemsRest tl2 with
      | none => rw [hv, hr] at ht; exact absurd ht (by simp)
      | some ts2 =>
        rw [hv, hr] at ht
        injection ht with ht
        exact Or.inr ⟨tv ++ ts2, ht.symm⟩

theorem dumpsEntriesRest_shape : ∀ (tl : PyDict) (ts : List Nat),
    dumpsEntriesRest tl = some ts → ts = [] ∨ ∃ ts2, ts = 44 :: 32 :: ts2 := by
  intro tl ts ht
  cases tl with
  | nil => simp [dumpsEntriesRest] at ht; exact Or.inl ht
  | cons k v tl2 =>
    simp only [dumpsEntriesRest] at ht
    cases hv : dumps v with
    | none => rw [hv] at ht; exact absurd ht (by simp)
    | some tv =>
      cases hr : dumpsEntriesRest tl2 with
      | none => rw [hv, hr] at ht; exact absurd ht (by simp)
      | some ts2 =>
        rw [hv, hr] at ht
        injection ht with ht
        exact Or.inr ⟨dumpKey k ++ 58 :: 32 :: tv ++ ts2, ht.symm⟩

theorem numBoundary_closer (ts : List Nat) (e : Nat) (he : e = 93 ∨ e = 125)
    (hshape : ts = [] ∨ ∃ ts2, ts = 44 :: 32 :: ts2) (rest : List Nat) :
    numBoundary (ts ++ e :: rest) := by
  rcases hshape with h | ⟨ts2, h⟩ <;> subst h
  · show numBoundary (e :: rest)
    unfold numBoundary
    omega
  · show numBoundary (44 :: (32 :: ts2 ++ e :: rest))
    unfold numBoundary
    omega

theorem needV_pos (v : PyVal) : 1 ≤ needV v := by
  cases v <;> simp [needV]

theorem needItems_pos (xs : PyList) : 1 ≤ needItems xs := by
  cases xs <;> simp [needItems]

theorem needEntries_pos (es : PyDict) : 1 ≤ needEntries es := by
  cases es <;> simp [needEntries]

mutual
/-- Decoding inverts encoding: on the JSON-faithful fragment, the decoder
applied to an encoder token followed by anything that ends a number
returns exactly the encoded value and the leftover input. -/
theorem rtVal : ∀ (v : PyVal), safeV v = true → ∀ t, dumps v = some t →
    ∀ f rest, needV v ≤ f → numBoundary rest →
    parseValue f (t ++ rest) = some (v, rest)
  | .null => by
    intro _ t ht f rest hf _
    rw [show dumps .null = some (sLit "null") from rfl] at ht
    simp only [Option.some.injEq] at ht
    subst ht
    cases f with
    | zero => exact absurd hf (by decide)
    | succ f => rfl
  | .bool true => by
    intro _ t ht f rest hf _
    rw [show dumps (.bool true) = some (sLit "true") from rfl] at ht
    simp only [Option.some.injEq] at ht
    subst ht
    cases f with
    | zero => exact absurd hf (by decide)
    | succ f => rfl
  | .bool false => by
    intro _ t ht f rest hf _
    rw [show dumps (.bool false) = some (sLit "false") from rfl] at ht
    simp only [Option.some.injEq] at ht
    subst ht
    cases f with
    | zero => exact absurd hf (by decide)
    | succ f => rfl
  | .int n => by
    intro _ t ht f rest hf hb
    rw [show dumps (.int n) = some (intDecimal n) from rfl] at ht
    simp only [Option.some.injEq] at ht
    subst ht
    have hff := floatFollows_eq_false rest hb
    cases f with
    | zero => exact absurd hf (by have := needV_pos (.int n); omega)
    | succ f =>
      by_cases hneg : n < 0
      · have hp := parseNat1_natDecimal (-n).toNat rest (numBoundary_notDigitAt rest hb)
        rw [show intDecimal n = 45 :: natDecimal (-n).toNat from by simp [intDecimal, hneg]]
        rw [show (45 :: natDecimal (-n).toNat) ++ rest =
          45 :: (natDecimal (-n).toNat ++ rest) from by simp]
        have h1 : parseValue (f + 1) (45 :: (natDecimal (-n).toNat ++ rest)) =
            (match parseNat1 (natDecimal (-n).toNat ++ rest) with
              | some (m, r) => if floatFollows r then none else some (.int (-(m : Int)), r)
              | none => none) := rfl
        rw [h1, hp]
        simp [hff]
        omega
      · obtain ⟨c, ds, heq, hc1, hc2⟩ := natDecimal_head_digit n.toNat
        have hp := parseNat1_natDecimal n.toNat rest (numBoundary_notDigitAt rest hb)
        rw [heq] at hp
        simp only [List.cons_append] at hp
        rw [show intDecimal n = natDecimal n.toNat from by simp [intDecimal, hneg]]
        rw [heq]
        rw [show (c :: ds) ++ rest = c :: (ds ++ rest) from by simp]
        simp only [parseValue]
        rw [skipWs_not_ws c _ (by simp only [isWsCode, decide_eq_false_iff_not]; omega)]
        simp only [if_neg (show ¬c = 34 by omega), if_neg (show ¬c = 110 by omega),
          if_neg (show ¬c = 116 by omega), if_neg (show ¬c = 102 by omega),
          if_neg (show ¬c = 45 by omega), if_pos (show 48 ≤ c ∧ c ≤ 57 by omega),
          hp, hff, Bool.false_eq_true, if_false, Option.some.injEq]
        rw [show ((n.toNat : Nat) : Int) = n from by omega]
  | .str ss => by
    intro hs t ht f rest hf _
    rw [show dumps (.str ss) = some (dumpStr ss) from rfl] at ht
    simp only [Option.some.injEq] at ht
    subst ht
    cases f with
    | zero => exact absurd hf (by have := needV_pos (.str ss); omega)
    | succ f =>
      rw [show dumpStr ss ++ rest =
        34 :: ((ss.map escapeChar).flatten ++ 34 :: rest) from by simp [dumpStr]]
      have hlen : ss.length < ((ss.map escapeChar).flatten ++ 34 :: rest).length + 1 := by
        have := length_le_flatten_escape ss
        simp only [List.length_append, List.length_cons]
        omega
      have hsb := parseStringBody_dumped ss (goodStrB_mem hs)
        (((ss.map escapeChar).flatten ++ 34 :: rest).length + 1) rest hlen
      have h1 : parseValue (f + 1) (34 :: ((ss.map escapeChar).flatten ++ 34 :: rest)) =
          (match parseStringBody (((ss.map escapeChar).flatten ++ 34 :: rest).length + 1)
              ((ss.map escapeChar).flatten ++ 34 :: rest) with
            | some (str, r) => some (.str str, r)
            | none => none) := rfl
      rw [h1, hsb]
  | .list xs => by
    intro hs t ht f rest hf _
    simp only [dumps] at ht
    cases hx : dumpsItems xs with
    | none => rw [hx] at ht; exact absurd ht (by simp)
    | some ti =>
      rw [hx] at ht
      simp only [Option.some.injEq] at ht
      subst ht
      cases f with
      | zero => exact absurd hf (by have := needV_pos (.list xs); omega)
      | succ f =>
        have hf' : needItems xs ≤ f := by
          have : needV (.list xs) = 1 + needItems xs := rfl
          omega
        rw [show (91 :: ti ++ [93]) ++ rest = 91 :: (ti ++ 93 :: rest) from by simp]
        simp only [parseValue]
        rw [skipWs_not_ws 91 _ (by decide)]
        simp [rtItems xs hs ti hx f rest hf']
  | .tuple xs => by
    intro hs
    exact absurd hs (by simp [safeV])
  | .dict es => by
    intro hs t ht f rest hf _
    simp only [dumps] at ht
    cases hx : dumpsEntries es with
    | none => rw [hx] at ht; exact absurd ht (by simp)
    | some ti =>
      rw [hx] at ht
      simp only [Option.some.injEq] at ht
      subst ht
      cases f with
      | zero => exact absurd hf (by have := needV_pos (.dict es); omega)
      | succ f =>
        have hf' : needEntries es ≤ f := by
          have : needV (.dict es) = 1 + needEntries es := rfl
          omega
        rw [show (123 :: ti ++ [125]) ++ rest = 123 :: (ti ++ 125 :: rest) from by simp]
        simp only [parseValue]
        rw [skipWs_not_ws 123 _ (by decide)]
        simp [rtEntries es hs ti hx f rest hf']
  | .obj => by
    intro _ t ht
    exact absurd ht (by simp [dumps])

/-- Decoding the interior of an encoded array (plus the closing bracket)
returns the encoded elements. -/
theorem rtItems : ∀ (xs : PyList), safeL xs = true → ∀ t, dumpsItems xs = some t →
    ∀ f rest, needItems xs ≤ f → parseListBody f (t ++ 93 :: rest) = some (xs, rest)
  | .nil => by
    intro _ t ht f rest hf
    rw [show dumpsItems .nil = some [] from rfl] at ht
    simp only [Option.some.injEq] at ht
    subst ht
    cases f with
    | zero => exact absurd hf (by decide)
    | succ f => rfl
  | .cons v tl => by
    intro hs t ht f rest hf
    have hsv : safeV v = true ∧ safeL tl = true := by
      have := hs
      simp only [safeL, Bool.and_eq_true] at this
      exact this
    simp only [dumpsItems] at ht
    cases hv : dumps v with
    | none => rw [hv] at ht; exact absurd ht (by simp)
    | some tv =>
      cases hr : dumpsItemsRest tl with
      | none => rw [hv, hr] at ht; exact absurd ht (by simp)
      | some ts =>
        rw [hv, hr] at ht
        simp only [Option.some.injEq] at ht
        subst ht
        obtain ⟨h, tv2, rfl, hth⟩ := dumps_head v tv hv
        obtain ⟨hws, h93, h125, h44, h58⟩ := tokenHead_props h hth
        cases f with
        | zero => exact absurd hf (by have := needItems_pos (.cons v tl); omega)
        | succ f =>
          have hfv : needV v ≤ f := by
            have : needItems (.cons v tl) = 1 + max (needV v) (needItems tl) := rfl
            omega
          have hft : needItems tl ≤ f := by
            have : needItems (.cons v tl) = 1 + max (needV v) (needItems tl) := rfl
            omega
          have hrv := rtVal v hsv.1 (h :: tv2) hv f (ts ++ 93 :: rest) hfv
            (numBoundary_closer ts 93 (Or.inl rfl) (dumpsItemsRest_shape tl ts hr) rest)
          simp only [List.cons_append] at hrv
          have hir := rtItemsRest tl hsv.2 ts hr f rest hft
          rw [show ((h :: tv2) ++ ts) ++ 93 :: rest =
            h :: (tv2 ++ (ts ++ 93 :: rest)) from by simp]
          simp only [parseListBody]
          rw [skipWs_not_ws h _ hws]
          simp [if_neg h93, hrv, hir]
/-- Decoding the continuation of an encoded array after one element. -/
theorem rtItemsRest : ∀ (tl : PyList), safeL tl = true → ∀ ts,
    dumpsItemsRest tl = some ts →
    ∀ f rest, needItems tl ≤ f → parseItemsRest f (ts ++ 93 :: rest) = some (tl, rest)
  | .nil => by
    intro _ ts ht f rest hf
    rw [show dumpsItemsRest .nil = some [] from rfl] at ht
    simp only [Option.some.injEq] at ht
    subst ht
    cases f with
    | zero => exact absurd hf (by decide)
    | succ f => rfl
  | .cons v tl => by
    intro hs ts ht f rest hf
    have hsv : safeV v = true ∧ safeL tl = true := by
      have := hs
      simp only [safeL, Bool.and_eq_true] at this
      exact this
    simp only [dumpsItemsRest] at ht
    cases hv : dumps v with
    | none => rw [hv] at ht; exact absurd ht (by simp)
    | some tv =>
      cases hr : dumpsItemsRest tl with
      | none => rw [hv, hr] at ht; exact absurd ht (by simp)
      | some ts2 =>
        rw [hv, hr] at ht
        simp only [Option.some.injEq] at ht
        subst ht
        cases f with
        | zero => exact absurd hf (by have := needItems_pos (.cons v tl); omega)
        | succ f =>
          have hfv : needV v ≤ f := by
            have : needItems (.cons v tl) = 1 + max (needV v) (needItems tl) := rfl
            omega
          have hft : needItems tl ≤ f := by
            have : needItems (.cons v tl) = 1 + max (needV v) (needItems tl) := rfl
            omega
          have hrv := rtVal v hsv.1 tv hv f (ts2 ++ 93 :: rest) hfv
            (numBoundary_closer ts2 93 (Or.inl rfl) (dumpsItemsRest_shape tl ts2 hr) rest)
          have hir := rtItemsRest tl hsv.2 ts2 hr f rest hft
          rw [show (44 :: 32 :: tv ++ ts2) ++ 93 :: rest =
            44 :: 32 :: (tv ++ (ts2 ++ 93 :: rest)) from by simp]
          simp only [parseItemsRest]
          rw [skipWs_not_ws 44 _ (by decide)]
          simp [parseValue_cons_ws f 32 (by decide), hrv, hir]
/-- Decoding the interior of an encoded object (plus the closing brace)
returns the encoded entries. -/
theorem rtEntries : ∀ (es : PyDict), safeD es = true → ∀ t, dumpsEntries es = some t →
    ∀ f rest, needEntries es ≤ f → parseDictBody f (t ++ 125 :: rest) = some (es, rest)
  | .nil => by
    intro _ t ht f rest hf
    rw [show dumpsEntries .nil = some [] from rfl] at ht
    simp only [Option.some.injEq] at ht
    subst ht
    cases f with
    | zero => exact absurd hf (by decide)
    | succ f => rfl
  | .cons k v tl => by
    intro hs t ht f rest hf
    cases k with
    | kint n => exact absurd hs (by simp [safeD])
    | kbool b => exact absurd hs (by simp [safeD])
    | knone => exact absurd hs (by simp [safeD])
    | kstr ks =>
      have hsv : goodStrB ks = true ∧ safeV v = true ∧ safeD tl = true := by
        have := hs
        simp only [safeD, Bool.and_eq_true] at this
        exact ⟨this.1.1, this.1.2, this.2⟩
      simp only [dumpsEntries] at ht
      cases hv : dumps v with
      | none => rw [hv] at ht; exact absurd ht (by simp)
      | some tv =>
        cases hr : dumpsEntriesRest tl with
        | none => rw [hv, hr] at ht; exact absurd ht (by simp)
        | some ts =>
          rw [hv, hr] at ht
          simp only [Option.some.injEq] at ht
          subst ht
          cases f with
          | zero =>
            exact absurd hf (by have := needEntries_pos (.cons (.kstr ks) v tl); omega)
          | succ f =>
            have hfv : needV v ≤ f := by
              have : needEntries (.cons (.kstr ks) v tl) =
                1 + max (needV v) (needEntries tl) := rfl
              omega
            have hft : needEntries tl ≤ f := by
              have : needEntries (.cons (.kstr ks) v tl) =
                1 + max (needV v) (needEntries tl) := rfl
              omega
            rw [show (dumpKey (.kstr ks) ++ 58 :: 32 :: tv ++ ts) ++ 125 :: rest =
              34 :: ((ks.map escapeChar).flatten ++
                34 :: (58 :: 32 :: (tv ++ (ts ++ 125 :: rest)))) from by
              simp [dumpKey, dumpStr]]
            have hlen : ks.length < ((ks.map escapeChar).flatten ++
                34 :: (58 :: 32 :: (tv ++ (ts ++ 125 :: rest)))).length + 1 := by
              have := length_le_flatten_escape ks
              simp only [List.length_append, List.length_cons]
              omega
            have hsb := parseStringBody_dumped ks (goodStrB_mem hsv.1)
              (((ks.map escapeChar).flatten ++
                34 :: (58 :: 32 :: (tv ++ (ts ++ 125 :: rest)))).length + 1)
              (58 :: 32 :: (tv ++ (ts ++ 125 :: rest))) hlen
            have hrv := rtVal v hsv.2.1 tv hv f (ts ++ 125 :: rest) hfv
              (numBoundary_closer ts 125 (Or.inr rfl) (dumpsEntriesRest_shape tl ts hr) rest)
            have hir := rtEntriesRest tl hsv.2.2 ts hr f rest hft
            have h1 : parseDictBody (f + 1) (34 :: ((ks.map escapeChar).flatten ++
                34 :: (58 :: 32 :: (tv ++ (ts ++ 125 :: rest))))) =
                (match parseStringBody (((ks.map escapeChar).flatten ++
                    34 :: (58 :: 32 :: (tv ++ (ts ++ 125 :: rest)))).length + 1)
                    ((ks.map escapeChar).flatten ++
                    34 :: (58 :: 32 :: (tv ++ (ts ++ 125 :: rest)))) with
                  | some (k, r) =>
                    match skipWs r with
                    | 58 :: r2 =>
                      match parseValue f r2 with
                      | some (v2, r3) =>
                        match parseDictRest f r3 with
                        | some (tl2, r4) => some (.cons (.kstr k) v2 tl2, r4)
                        | none => none
                      | none => none
                    | _ => none
                  | none => none) := rfl
            rw [h1, hsb]
            simp only [skipWs_not_ws 58 (32 :: (tv ++ (ts ++ 125 :: rest))) (by decide),
              parseValue_cons_ws f 32 (by decide), hrv, hir]
/-- Decoding the continuation of an encoded object after one entry. -/
theorem rtEntriesRest : ∀ (tl : PyDict), safeD tl = true → ∀ ts,
    dumpsEntriesRest tl = some ts →
    ∀ f rest, needEntries tl ≤ f → parseDictRest f (ts ++ 125 :: rest) = some (tl, rest)
  | .nil => by
    intro _ ts ht f rest hf
    rw [show dumpsEntriesRest .nil = some [] from rfl] at ht
    simp only [Option.some.injEq] at ht
    subst ht
    cases f with
    | zero => exact absurd hf (by decide)
    | succ f => rfl
  | .cons k v tl => by
    intro hs ts ht f rest hf
    cases k with
    | kint n => exact absurd hs (by simp [safeD])
    | kbool b => exact absurd hs (by simp [safeD])
    | knone => exact absurd hs (by simp [safeD])
    | kstr ks =>
      have hsv : goodStrB ks = true ∧ safeV v = true ∧ safeD tl = true := by
        have := hs
        simp only [safeD, Bool.and_eq_true] at this
        exact ⟨this.1.1, this.1.2, this.2⟩
      simp only [dumpsEntriesRest] at ht
      cases hv : dumps v with
      | none => rw [hv] at ht; exact absurd ht (by simp)
      | some tv =>
        cases hr : dumpsEntriesRest tl with
        | none => rw [hv, hr] at ht; exact absurd ht (by simp)
        | some ts2 =>
          rw [hv, hr] at ht
          simp only [Option.some.injEq] at ht
          subst ht
          cases f with
          | zero =>
            exact absurd hf (by have := needEntries_pos (.cons (.kstr ks) v tl); omega)
          | succ f =>
            have hfv : needV v ≤ f := by
              have : needEntries (.cons (.kstr ks) v tl) =
                1 + max (needV v) (needEntries tl) := rfl
              omega
            have hft : needEntries tl ≤ f := by
              have : needEntries (.cons (.kstr ks) v tl) =
                1 + max (needV v) (needEntries tl) := rfl
              omega
            rw [show (44 :: 32 :: dumpKey (.kstr ks) ++ 58 :: 32 :: tv ++ ts2) ++
              125 :: rest = 44 :: 32 :: 34 :: ((ks.map escapeChar).flatten ++
                34 :: (58 :: 32 :: (tv ++ (ts2 ++ 125 :: rest)))) from by
              simp [dumpKey, dumpStr]]
            have hlen : ks.length < ((ks.map escapeChar).flatten ++
                34 :: (58 :: 32 :: (tv ++ (ts2 ++ 125 :: rest)))).length + 1 := by
              have := length_le_flatten_escape ks
              simp only [List.length_append, List.length_cons]
              omega
            have hsb := parseStringBody_dumped ks (goodStrB_mem hsv.1)
              (((ks.map escapeChar).flatten ++
                34 :: (58 :: 32 :: (tv ++ (ts2 ++ 125 :: rest)))).length + 1)
              (58 :: 32 :: (tv ++ (ts2 ++ 125 :: rest))) hlen
            have hrv := rtVal v hsv.2.1 tv hv f (ts2 ++ 125 :: rest) hfv
              (numBoundary_closer ts2 125 (Or.inr rfl) (dumpsEntriesRest_shape tl ts2 hr) rest)
            have hir := rtEntriesRest tl hsv.2.2 ts2 hr f rest hft
            have h1 : parseDictRest (f + 1) (44 :: 32 :: 34 :: ((ks.map escapeChar).flatten ++
                34 :: (58 :: 32 :: (tv ++ (ts2 ++ 125 :: rest))))) =
                (match parseStringBody (((ks.map escapeChar).flatten ++
                    34 :: (58 :: 32 :: (tv ++ (ts2 ++ 125 :: rest)))).length + 1)
                    ((ks.map escapeChar).flatten ++
                    34 :: (58 :: 32 :: (tv ++ (ts2 ++ 125 :: rest)))) with
                  | some (k, r) =>
                    match skipWs r with
                    | 58 :: r2 =>
                      match parseValue f r2 with
                      | some (v2, r3) =>
                        match parseDictRest f r3 with
                        | some (tl2, r4) => some (.cons (.kstr k) v2 tl2, r4)
                        | none => none
                      | none => none
                    | _ => none
                  | none => none) := rfl
            rw [h1, hsb]
            simp only [skipWs_not_ws 58 (32 :: (tv ++ (ts2 ++ 125 :: rest))) (by decide),
              parseValue_cons_ws f 32 (by decide), hrv, hir]
end

theorem dumps_length_pos (v : PyVal) (t : List Nat) (ht : dumps v = some t) :
    1 ≤ t.length := by
  obtain ⟨h, t2, rfl, _⟩ := dumps_head v t ht
  simp

mutual
/-- The fuel a token's own length affords suffices for the decoder. -/
theorem needV_le : ∀ (v : PyVal) (t : List Nat), dumps v = some t → needV v ≤ t.length
  | .null => by
    intro t ht
    rw [show dumps .null = some (sLit "null") from rfl] at ht
    simp only [Option.some.injEq] at ht
    subst ht
    decide
  | .bool true => by
    intro t ht
    rw [show dumps (.bool true) = some (sLit "true") from rfl] at ht
    simp only [Option.some.injEq] at ht
    subst ht
    decide
  | .bool false => by
    intro t ht
    rw [show dumps (.bool false) = some (sLit "false") from rfl] at ht
    simp only [Option.some.injEq] at ht
    subst ht
    decide
  | .int n => by
    intro t ht
    have := dumps_length_pos (.int n) t ht
    have h1 : needV (.int n) = 1 := rfl
    omega
  | .str ss => by
    intro t ht
    have := dumps_length_pos (.str ss) t ht
    have h1 : needV (.str ss) = 1 := rfl
    omega
  | .list xs => by
    intro t ht
    simp only [dumps] at ht
    cases hx : dumpsItems xs with
    | none => rw [hx] at ht; exact absurd ht (by simp)
    | some ti =>
      rw [hx] at ht
      simp only [Option.some.injEq] at ht
      subst ht
      have h1 := needItems_le xs ti hx
      have h2 : needV (.list xs) = 1 + needItems xs := rfl
      simp only [List.length_cons, List.length_append, List.length_singleton]
      omega
  | .tuple xs => by
    intro t ht
    simp only [dumps] at ht
    cases hx : dumpsItems xs with
    | none => rw [hx] at ht; exact absurd ht (by simp)
    | some ti =>
      rw [hx] at ht
      simp only [Option.some.injEq] at ht
      subst ht
      have h1 := needItems_le xs ti hx
      have h2 : needV (.tuple xs) = 1 + needItems xs := rfl
      simp only [List.length_cons, List.length_append, List.length_singleton]
      omega
  | .dict es => by
    intro t ht
    simp only [dumps] at ht
    cases hx : dumpsEntries es with
    | none => rw [hx] at ht; exact absurd ht (by simp)
    | some ti =>
      rw [hx] at ht
      simp only [Option.some.injEq] at ht
      subst ht
      have h1 := needEntries_le es ti hx
      have h2 : needV (.dict es) = 1 + needEntries es := rfl
      simp only [List.length_cons, List.length_append, List.length_singleton]
      omega
  | .obj => by
    intro t ht
    exact absurd ht (by simp [dumps])
theorem needItems_le : ∀ (xs : PyList) (t : List Nat), dumpsItems xs = some t →
    needItems xs ≤ t.length + 1
  | .nil => by
    intro t ht
    rw [show dumpsItems .nil = some [] from rfl] at ht
    simp only [Option.some.injEq] at ht
    subst ht
    decide
  | .cons v tl => by
    intro t ht
    simp only [dumpsItems] at ht
    cases hv : dumps v with
    | none => rw [hv] at ht; exact absurd ht (by simp)
    | some tv =>
      cases hr : dumpsItemsRest tl with
      | none => rw [hv, hr] at ht; exact absurd ht (by simp)
      | some ts =>
        rw [hv, hr] at ht
        simp only [Option.some.injEq] at ht
        subst ht
        have h1 := needV_le v tv hv
        have h2 := needItemsRest_le tl ts hr
        have h3 := dumps_length_pos v tv hv
        have h4 : needItems (.cons v tl) = 1 + max (needV v) (needItems tl) := rfl
        simp only [List.length_append]
        omega
theorem needItemsRest_le : ∀ (xs : PyList) (t : List Nat), dumpsItemsRest xs = some t →
    needItems xs ≤ t.length + 1
  | .nil => by
    intro t ht
    rw [show dumpsItemsRest .nil = some [] from rfl] at ht
    simp only [Option.some.injEq] at ht
    subst ht
    decide
  | .cons v tl => by
    intro t ht
    simp only [dumpsItemsRest] at ht
    cases hv : dumps v with
    | none => rw [hv] at ht; exact absurd ht (by simp)
    | some tv =>
      cases hr : dumpsItemsRest tl with
      | none => rw [hv, hr] at ht; exact absurd ht (by simp)
      | some ts =>
        rw [hv, hr] at ht
        simp only [Option.some.injEq] at ht
        subst ht
        have h1 := needV_le v tv hv
        have h2 := needItemsRest_le tl ts hr
        have h4 : needItems (.cons v tl) = 1 + max (needV v) (needItems tl) := rfl
        simp only [List.length_cons, List.length_append]
        omega
theorem needEntries_le : ∀ (es : PyDict) (t : List Nat), dumpsEntries es = some t →
    needEntries es ≤ t.length + 1
  | .nil => by
    intro t ht
    rw [show dumpsEntries .nil = some [] from rfl] at ht
    simp only [Option.some.injEq] at ht
    subst ht
    decide
  | .cons k v tl => by
    intro t ht
    simp only [dumpsEntries] at ht
    cases hv : dumps v with
    | none => rw [hv] at ht; exact absurd ht (by simp)
    | some tv =>
      cases hr : dumpsEntriesRest tl with
      | none => rw [hv, hr] at ht; exact absurd ht (by simp)
      | some ts =>
        rw [hv, hr] at ht
        simp only [Option.some.injEq] at ht
        subst ht
        have h1 := needV_le v tv hv
        have h2 := needEntriesRest_le tl ts hr
        have h4 : needEntries (.cons k v tl) = 1 + max (needV v) (needEntries tl) := rfl
        simp only [List.length_cons, List.length_append]
        omega
theorem needEntriesRest_le : ∀ (es : PyDict) (t : List Nat), dumpsEntriesRest es = some t →
    needEntries es ≤ t.length + 1
  | .nil => by
    intro t ht
    rw [show dumpsEntriesRest .nil = some [] from rfl] at ht
    simp only [Option.some.injEq] at ht
    subst ht
    decide
  | .cons k v tl => by
    intro t ht
    simp only [dumpsEntriesRest] at ht
    cases hv : dumps v with
    | none => rw [hv] at ht; exact absurd ht (by simp)
    | some tv =>
      cases hr : dumpsEntriesRest tl with
      | none => rw [hv, hr] at ht; exact absurd ht (by simp)
      | some ts =>
        rw [hv, hr] at ht
        simp only [Option.some.injEq] at ht
        subst ht
        have h1 := needV_le v tv hv
        have h2 := needEntriesRest_le tl ts hr
        have h4 : needEntries (.cons k v tl) = 1 + max (needV v) (needEntries tl) := rfl
        simp only [List.length_cons, List.length_append]
        omega
end

mutual
/-- The encoder succeeds on every value of the JSON-faithful fragment. -/
theorem dumpsSafeV : ∀ (v : PyVal), safeV v = true → ∃ t, dumps v = some t
  | .null => fun _ => ⟨_, rfl⟩
  | .bool true => fun _ => ⟨_, rfl⟩
  | .bool false => fun _ => ⟨_, rfl⟩
  | .int n => fun _ => ⟨_, rfl⟩
  | .str ss => fun _ => ⟨_, rfl⟩
  | .list xs => by
    intro hs
    obtain ⟨ti, hti⟩ := dumpsSafeItems xs hs
    exact ⟨91 :: ti ++ [93], by simp [dumps, hti]⟩
  | .tuple xs => fun hs => absurd hs (by simp [safeV])
  | .dict es => by
    intro hs
    obtain ⟨ti, hti⟩ := dumpsSafeEntries es hs
    exact ⟨123 :: ti ++ [125], by simp [dumps, hti]⟩
  | .obj => fun hs => absurd hs (by simp [safeV])
theorem dumpsSafeItems : ∀ (xs : PyList), safeL xs = true → ∃ t, dumpsItems xs = some t
  | .nil => fun _ => ⟨_, rfl⟩
  | .cons v tl => by
    intro hs
    have hsv : safeV v = true ∧ safeL tl = true := by
      have := hs
      simp only [safeL, Bool.and_eq_true] at this
      exact this
    obtain ⟨tv, hv⟩ := dumpsSafeV v hsv.1
    obtain ⟨ts, hr⟩ := dumpsSafeItemsRest tl hsv.2
    exact ⟨tv ++ ts, by simp [dumpsItems, hv, hr]⟩
theorem dumpsSafeItemsRest : ∀ (xs : PyList), safeL xs = true →
    ∃ t, dumpsItemsRest xs = some t
  | .nil => fun _ => ⟨_, rfl⟩
  | .cons v tl => by
    intro hs
    have hsv : safeV v = true ∧ safeL tl = true := by
      have := hs
      simp only [safeL, Bool.and_eq_true] at this
      exact this
    obtain ⟨tv, hv⟩ := dumpsSafeV v hsv.1
    obtain ⟨ts, hr⟩ := dumpsSafeItemsRest tl hsv.2
    exact ⟨44 :: 32 :: tv ++ ts, by simp [dumpsItemsRest, hv, hr]⟩
theorem dumpsSafeEntries : ∀ (es : PyDict), safeD es = true → ∃ t, dumpsEntries es = some t
  | .nil => fun _ => ⟨_, rfl⟩
  | .cons k v tl => by
    intro hs
    have hsv : safeV v = true ∧ safeD tl = true := by
      have := hs
      simp only [safeD, Bool.and_eq_true] at this
      exact ⟨this.1.2, this.2⟩
    obtain ⟨tv, hv⟩ := dumpsSafeV v hsv.1
    obtain ⟨ts, hr⟩ := dumpsSafeEntriesRest tl hsv.2
    exact ⟨dumpKey k ++ 58 :: 32 :: tv ++ ts, by simp [dumpsEntries, hv, hr]⟩
theorem dumpsSafeEntriesRest : ∀ (es : PyDict), safeD es = true →
    ∃ t, dumpsEntriesRest es = some t
  | .nil => fun _ => ⟨_, rfl⟩
  | .cons k v tl => by
    intro hs
    have hsv : safeV v = true ∧ safeD tl = true := by
      have := hs
      simp only [safeD, Bool.and_eq_true] at this
      exact ⟨this.1.2, this.2⟩
    obtain ⟨tv, hv⟩ := dumpsSafeV v hsv.1
    obtain ⟨ts, hr⟩ := dumpsSafeEntriesRest tl hsv.2
    exact ⟨44 :: 32 :: dumpKey k ++ 58 :: 32 :: tv ++ ts, by simp [dumpsEntriesRest, hv, hr]⟩
end

/-- Decoding the stored text of a safe value gives the value back. -/
theorem loads_dumps (v : PyVal) (t : List Nat) (hs : safeV v = true)
    (ht : dumps v = some t) : loads t = some v := by
  have hneed := needV_le v t ht
  have h := rtVal v hs t ht (t.length + 1) [] (by omega) trivial
  rw [List.append_nil] at h
  unfold loads
  rw [h]
  rfl

/-- The write-then-read round trip is the identity on the JSON-faithful
fragment of plan values. -/
theorem roundTrip_safe (v : PyVal) (hs : safeV v = true) : roundTrip v = some v := by
  obtain ⟨t, ht⟩ := dumpsSafeV v hs
  unfold roundTrip
  rw [ht]
  exact loads_dumps v t hs ht

theorem save_plan_failure_none (s : DBState) (pi : PatientInfo) (pr : String) (d : Int)
    (pl : PyVal) (fn nt : Option String) (now : Nat) :
    save_plan s pi pr d pl fn nt false now = (none, s) := by
  unfold save_plan
  cases dumps pl <;> simp

theorem save_plan_dumps_none (s : DBState) (pi : PatientInfo) (pr : String) (d : Int)
    (pl : PyVal) (fn nt : Option String) (ok : Bool) (now : Nat) (h : dumps pl = none) :
    save_plan s pi pr d pl fn nt ok now = (none, s) := by
  unfold save_plan
  rw [h]

theorem save_plan_success_eq (s : DBState) (pi : PatientInfo) (pr : String) (d : Int)
    (pl : PyVal) (fn nt : Option String) (now : Nat) (payload : List Nat)
    (hp : dumps pl = some payload) :
    save_plan s pi pr d pl fn nt true now =
      (some (nextId s), ⟨s.plans ++ [⟨nextId s, pi.age.getD "N/A", pi.gender.getD "N/A",
        pi.surgeryDate.getD "", pi.conditions.getD "", nt.getD "", pr, d, payload,
        now, fn⟩]⟩) := by
  unfold save_plan
  rw [hp]
  rfl

theorem save_plan_cases (s : DBState) (pi : PatientInfo) (pr : String) (d : Int)
    (pl : PyVal) (fn nt : Option String) (ok : Bool) (now : Nat) :
    save_plan s pi pr d pl fn nt ok now = (none, s) ∨
    ∃ r : RehabPlan, r.id = nextId s ∧ r.created_at = now ∧
      save_plan s pi pr d pl fn nt ok now = (some (nextId s), ⟨s.plans ++ [r]⟩) := by
  cases hd : dumps pl with
  | none => exact Or.inl (save_plan_dumps_none s pi pr d pl fn nt ok now hd)
  | some payload =>
    cases ok with
    | false => exact Or.inl (save_plan_failure_none s pi pr d pl fn nt now)
    | true =>
      exact Or.inr ⟨⟨nextId s, pi.age.getD "N/A", pi.gender.getD "N/A",
        pi.surgeryDate.getD "", pi.conditions.getD "", nt.getD "", pr, d, payload,
        now, fn⟩, rfl, rfl, save_plan_success_eq s pi pr d pl fn nt now payload hd⟩

theorem maxIdList_append_one (l : List RehabPlan) (r : RehabPlan) :
    maxIdList (l ++ [r]) = max (maxIdList l) r.id := by
  induction l with
  | nil =>
    simp only [maxIdList, List.nil_append, List.foldr_cons, List.foldr_nil]
    omega
  | cons a l ih =>
    simp only [maxIdList, List.cons_append, List.foldr_cons] at ih ⊢
    omega

theorem runSaves_cons (s : DBState) (a : SaveArgs) (rest : List SaveArgs) :
    runSaves s (a :: rest) =
      ((save_plan s a.patient_info a.procedure a.days_post_op a.plan
          a.file_name a.notes a.storageOk a.now).1 ::
        (runSaves (save_plan s a.patient_info a.procedure a.days_post_op a.plan
          a.file_name a.notes a.storageOk a.now).2 rest).1,
       (runSaves (save_plan s a.patient_info a.procedure a.days_post_op a.plan
          a.file_name a.notes a.storageOk a.now).2 rest).2) := rfl

theorem nextId_gt_maxIdList (s : DBState) : maxIdList s.plans < nextId s := by
  unfold nextId
  omega

theorem runSaves_ids_increasing : ∀ (args : List SaveArgs) (s : DBState),
    (∀ i ∈ (runSaves s args).1.filterMap (fun x => x), maxIdList s.plans < i) ∧
    ((runSaves s args).1.filterMap (fun x => x)).Pairwise (· < ·) := by
  intro args
  induction args with
  | nil => intro s; simp [runSaves]
  | cons a rest ih =>
    intro s
    rcases save_plan_cases s a.patient_info a.procedure a.days_post_op a.plan
      a.file_name a.notes a.storageOk a.now with h | ⟨r, hrid, _, h⟩
    · rw [runSaves_cons, h]
      simpa using ih s
    · rw [runSaves_cons, h]
      have hih := ih ⟨s.plans ++ [r]⟩
      have hmax : maxIdList (s.plans ++ [r]) = nextId s := by
        rw [maxIdList_append_one, hrid]
        unfold nextId
        omega
      have hb : ∀ i ∈ (runSaves (⟨s.plans ++ [r]⟩ : DBState) rest).1.filterMap
          (fun x => x), nextId s < i := by
        intro i hi
        have := hih.1 i hi
        simpa [hmax] using this
      constructor
      · intro i hi
        simp only [List.filterMap_cons, List.mem_cons] at hi
        rcases hi with rfl | hi
        · exact nextId_gt_maxIdList s
        · have h2 := hb i hi
          have h3 := nextId_gt_maxIdList s
          omega
      · simp only [List.filterMap_cons]
        exact List.Pairwise.cons hb hih.2

theorem runSaves_fst_length : ∀ (args : List SaveArgs) (s : DBState),
    (runSaves s args).1.length = args.length := by
  intro args
  induction args with
  | nil => intro s; rfl
  | cons a rest ih =>
    intro s
    rw [runSaves_cons]
    simp [ih]

theorem filterMap_id_length_of_isSome : ∀ (l : List (Option Nat)),
    (∀ x ∈ l, x.isSome) → (l.filterMap (fun x => x)).length = l.length := by
  intro l
  induction l with
  | nil => intro _; rfl
  | cons x rest ih =>
    intro h
    have hx := h x (List.mem_cons_self x rest)
    obtain ⟨y, rfl⟩ := Option.isSome_iff_exists.mp hx
    simp only [List.filterMap_cons, List.length_cons]
    rw [ih (fun z hz => h z (List.mem_cons_of_mem _ hz))]

theorem find_id_eq_none (l : List RehabPlan) (x : Nat) (h : ∀ r ∈ l, r.id ≠ x) :
    l.find? (fun r => r.id == x) = none := by
  rw [List.find?_eq_none]
  intro r hr
  simpa using h r hr

theorem find_id_some (l : List RehabPlan) (x : Nat) (r : RehabPlan)
    (h : l.find? (fun r => r.id == x) = some r) : r ∈ l ∧ r.id = x := by
  refine ⟨List.mem_of_find?_eq_some h, ?_⟩
  have := List.find?_some h
  simpa using this

theorem find_id_unique (l : List RehabPlan) (x : Nat) (r : RehabPlan)
    (hmem : r ∈ l) (hid : r.id = x) (hnd : (l.map RehabPlan.id).Nodup) :
    l.find? (fun p => p.id == x) = some r := by
  induction l with
  | nil => exact absurd hmem (List.not_mem_nil r)
  | cons a l ih =>
    simp only [List.map_cons, List.nodup_cons] at hnd
    rcases List.mem_cons.mp hmem with rfl | hmem2
    · rw [List.find?_cons_of_pos _ (by simpa using hid)]
    · have hax : a.id ≠ x := by
        intro hax
        exact hnd.1 (hax ▸ hid ▸ List.mem_map_of_mem RehabPlan.id hmem2)
      rw [List.find?_cons_of_neg _ (by simpa using hax)]
      exact ih hmem2 hnd.2

theorem dedupKeys_mem : ∀ (l : List String) (k : String), k ∈ dedupKeys l ↔ k ∈ l := by
  intro l
  induction l with
  | nil => intro k; simp [dedupKeys]
  | cons x xs ih =>
    intro k
    simp only [dedupKeys, List.mem_cons, List.mem_filter, ih, decide_eq_true_eq]
    constructor
    · rintro (rfl | ⟨hk, _⟩)
      · exact Or.inl rfl
      · exact Or.inr hk
    · rintro (rfl | hk)
      · exact Or.inl rfl
      · by_cases hkx : k = x
        · exact Or.inl hkx
        · exact Or.inr ⟨hk, hkx⟩

theorem dedupKeys_nodup : ∀ (l : List String), (dedupKeys l).Nodup := by
  intro l
  induction l with
  | nil => simp [dedupKeys]
  | cons x xs ih =>
    simp only [dedupKeys, List.nodup_cons]
    refine ⟨?_, List.Nodup.filter _ ih⟩
    intro hx
    have := (List.mem_filter.mp hx).2
    simp at this

theorem lookup_map_mem (keys : List String) (f : String → Nat) (k : String)
    (hk : k ∈ keys) : (keys.map (fun k2 => (k2, f k2))).lookup k = some (f k) := by
  induction keys with
  | nil => exact absurd hk (List.not_mem_nil k)
  | cons a keys ih =>
    rcases List.mem_cons.mp hk with rfl | hk2
    · simp [List.lookup]
    · by_cases hka : k = a
      · subst hka
        simp [List.lookup]
      · have hbeq : (k == a) = false := by simpa using hka
        simp only [List.map_cons, List.lookup, hbeq]
        exact ih hk2

theorem lookup_map_not_mem (keys : List String) (f : String → Nat) (k : String)
    (hk : k ∉ keys) : (keys.map (fun k2 => (k2, f k2))).lookup k = none := by
  induction keys with
  | nil => rfl
  | cons a keys ih =>
    simp only [List.mem_cons, not_or] at hk
    have hbeq : (k == a) = false := by simpa using hk.1
    simp only [List.map_cons, List.lookup, hbeq]
    exact ih hk.2

theorem numericFull_sqliteNum (a : String) (q : Rat) (h : numericFull a = some q) :
    sqliteNum a = q := by
  unfold numericFull at h
  unfold sqliteNum
  cases hp : sqliteNumParse a.data with
  | none => rw [hp] at h; exact absurd h (by simp)
  | some pr =>
    obtain ⟨v, r⟩ := pr
    rw [hp] at h
    by_cases hr : r = []
    · simp only [if_pos hr] at h
      simpa using h
    · simp only [if_neg hr] at h
      exact absurd h (by simp)

theorem map_numericFull_sqliteNum : ∀ (l : List RehabPlan) (xs : List Rat),
    l.map (fun r => numericFull r.patient_age) = xs.map some →
    l.map (fun r => sqliteNum r.patient_age) = xs := by
  intro l
  induction l with
  | nil =>
    intro xs h
    cases xs with
    | nil => rfl
    | cons y ys => exact absurd h (by simp)
  | cons a l ih =>
    intro xs h
    cases xs with
    | nil => exact absurd h (by simp)
    | cons y ys =>
      simp only [List.map_cons, List.cons.injEq] at h
      simp only [List.map_cons, List.cons.injEq]
      exact ⟨numericFull_sqliteNum a.patient_age y h.1, ih ys h.2⟩

theorem applyOp_extends (s : DBState) (op : DBOp) :
    ∃ t, (applyOp s op).plans = s.plans ++ t := by
  cases op with
  | opSave pi pr d pl fn nt ok now =>
    rcases save_plan_cases s pi pr d pl fn nt ok now with h | ⟨r, _, _, h⟩
    · exact ⟨[], by simp [applyOp, h]⟩
    · exact ⟨[r], by simp [applyOp, h]⟩
  | opGetAll => exact ⟨[], by simp [applyOp]⟩
  | opGetById i => exact ⟨[], by simp [applyOp]⟩
  | opGetStats => exact ⟨[], by simp [applyOp]⟩

theorem runOps_extends : ∀ (ops : List DBOp) (s : DBState),
    ∃ t, (runOps s ops).plans = s.plans ++ t := by
  intro ops
  induction ops with
  | nil => intro s; exact ⟨[], by simp [runOps]⟩
  | cons op ops ih =>
    intro s
    obtain ⟨t1, h1⟩ := applyOp_extends s op
    obtain ⟨t2, h2⟩ := ih (applyOp s op)
    refine ⟨t1 ++ t2, ?_⟩
    show (runOps (applyOp s op) ops).plans = _
    rw [h2, h1, List.append_assoc]

/-- C1: if the insert performed by save fails, no record is persisted (the
attempted insert is rolled back, leaving the state — and in particular
`getStats().totalPlans` — unchanged), and save returns the sentinel None
rather than propagating the storage error; the model's `save_plan` is a
total function, reflecting that the try/except shield keeps the caller
alive. -/
theorem save_failure_leaves_store_unchanged (s : DBState) (pi : PatientInfo)
    (pr : String) (d : Int) (pl : PyVal) (fn nt : Option String) (now : Nat) :
    save_plan s pi pr d pl fn nt false now = (none, s) ∧
    (get_stats (save_plan s pi pr d pl fn nt false now).2).total_plans =
      (get_stats s).total_plans := by
  have h := save_plan_failure_none s pi pr d pl fn nt now
  exact ⟨h, by rw [h]⟩

/-- C2: on success, save constructs one new PlanRecord from its arguments
(with the code's defaults for missing patient-info keys and notes),
persists it as a single insert appending exactly one row, and returns the
newly assigned id. -/
theorem save_success_appends_single_row (s : DBState) (pi : PatientInfo)
    (pr : String) (d : Int) (pl : PyVal) (fn nt : Option String) (now : Nat)
    (payload : List Nat) (hp : dumps pl = some payload) :
    save_plan s pi pr d pl fn nt true now =
      (some (nextId s), ⟨s.plans ++ [⟨nextId s, pi.age.getD "N/A", pi.gender.getD "N/A",
        pi.surgeryDate.getD "", pi.conditions.getD "", nt.getD "", pr, d, payload,
        now, fn⟩]⟩) ∧
    (get_stats (save_plan s pi pr d pl fn nt true now).2).total_plans =
      (get_stats s).total_plans + 1 := by
  have h := save_plan_success_eq s pi pr d pl fn nt now payload hp
  refine ⟨h, ?_⟩
  rw [h]
  simp [get_stats]

theorem save_success_appends_single_row_witness :
    save_plan ⟨[]⟩ wPI "ACL Reconstruction" 14 .null none none true 500 =
      (some 1, ⟨[⟨1, "34", "F", "2024-02-02", "none", "", "ACL Reconstruction", 14,
        sLit "null", 500, none⟩]⟩) ∧
    (get_stats (save_plan ⟨[]⟩ wPI "ACL Reconstruction" 14 .null none none
      true 500).2).total_plans = 1 :=
  have h := save_success_appends_single_row ⟨[]⟩ wPI "ACL Reconstruction" 14 .null
    none none 500 (sLit "null") rfl
  ⟨h.1, h.2⟩

/-- C10: when the JSON encoder raises on an unsupported plan value, the
exception shield in save catches it like a storage error: no record is
inserted, the state is unchanged, and the same sentinel None is returned
instead of the exception reaching the caller. -/
theorem save_serialization_error_shielded (s : DBState) (pi : PatientInfo)
    (pr : String) (d : Int) (pl : PyVal) (fn nt : Option String) (ok : Bool)
    (now : Nat) (h : dumps pl = none) :
    save_plan s pi pr d pl fn nt ok now = (none, s) :=
  save_plan_dumps_none s pi pr d pl fn nt ok now h

theorem save_serialization_error_shielded_witness :
    dumps .obj = none ∧
    save_plan ⟨[]⟩ wPI "TKR" 3 .obj none none true 7 = (none, ⟨[]⟩) :=
  ⟨rfl, save_serialization_error_shielded ⟨[]⟩ wPI "TKR" 3 .obj none none true 7 rfl⟩

/-- C6: the ids returned by a sequence of save calls are strictly
increasing (hence pairwise distinct) — on any starting store, so in
particular on a fresh one — and when every call succeeds there are as
many returned ids as calls. -/
theorem save_ids_unique_increasing (s : DBState) (args : List SaveArgs) :
    ((runSaves s args).1.filterMap (fun x => x)).Pairwise (· < ·) ∧
    ((∀ x ∈ (runSaves s args).1, x.isSome) →
      ((runSaves s args).1.filterMap (fun x => x)).length = args.length) := by
  refine ⟨(runSaves_ids_increasing args s).2, ?_⟩
  intro h
  rw [filterMap_id_length_of_isSome _ h, runSaves_fst_length]

theorem save_ids_unique_increasing_witness :
    ((runSaves ⟨[]⟩ wArgs).1.filterMap (fun x => x)).Pairwise (· < ·) ∧
    ((runSaves ⟨[]⟩ wArgs).1.filterMap (fun x => x)).length = wArgs.length :=
  ⟨(save_ids_unique_increasing ⟨[]⟩ wArgs).1,
   (save_ids_unique_increasing ⟨[]⟩ wArgs).2 (by decide)⟩

/-- C7: getById returns the stored record bearing the requested id when one
exists (the unique one, ids being distinct in any reachable store), and an
explicit None — not a failure — when no record bears it; the model is a
total function, so no exception is possible. -/
theorem get_plan_by_id_found_or_absent (s : DBState) (x : Nat) :
    ((∀ r ∈ s.plans, r.id ≠ x) → get_plan_by_id s x = none) ∧
    (∀ r, get_plan_by_id s x = some r → r ∈ s.plans ∧ r.id = x) ∧
    (∀ r ∈ s.plans, r.id = x → (s.plans.map RehabPlan.id).Nodup →
      get_plan_by_id s x = some r) :=
  ⟨fun h => find_id_eq_none s.plans x h,
   fun r h => find_id_some s.plans x r h,
   fun r hm hid hnd => find_id_unique s.plans x r hm hid hnd⟩

theorem get_plan_by_id_found_or_absent_witness :
    get_plan_by_id ⟨[wRec]⟩ 1 = some wRec ∧ get_plan_by_id ⟨[wRec]⟩ 99 = none :=
  ⟨(get_plan_by_id_found_or_absent ⟨[wRec]⟩ 1).2.2 wRec (by decide) (by decide) (by decide),
   (get_plan_by_id_found_or_absent ⟨[wRec]⟩ 99).1 (by decide)⟩

/-- C8: on a store with zero records, getAll returns the empty sequence and
getStats returns zero totalPlans, no procedure groups, and the NULL
sentinel (None) for averageAge; both are plain values, not failures. -/
theorem empty_store_defined :
    get_all_plans ⟨[]⟩ = [] ∧
    get_stats ⟨[]⟩ = { total_plans := 0, procedures := [], average_age := none } :=
  ⟨rfl, rfl⟩

/-- C9: createdAt is assigned exactly once, at insertion, from the clock the
storage layer reads at that moment (`now`), and no later operation mutates
it: every successful save appends one new record carrying `created_at =
now`, and any sequence of further calls only appends rows after the
existing ones, leaving every stored record — its createdAt included —
untouched. -/
theorem created_at_set_once_at_insert (s : DBState) (pi : PatientInfo) (pr : String)
    (d : Int) (pl : PyVal) (fn nt : Option String) (ok : Bool) (now : Nat)
    (ops : List DBOp) :
    (∀ rid s2, save_plan s pi pr d pl fn nt ok now = (some rid, s2) →
      ∃ r : RehabPlan, s2.plans = s.plans ++ [r] ∧ r.id = rid ∧ r.created_at = now) ∧
    (∃ suffix, (runOps s ops).plans = s.plans ++ suffix) := by
  constructor
  · intro rid s2 hsave
    rcases save_plan_cases s pi pr d pl fn nt ok now with h | ⟨r, hid, hca, h⟩
    · rw [hsave] at h
      exact absurd (congrArg Prod.fst h) (by simp)
    · rw [hsave] at h
      have h1 := congrArg Prod.fst h
      have h2 := congrArg Prod.snd h
      simp only [Option.some.injEq] at h1
      simp only [] at h2
      refine ⟨r, ?_, by omega, hca⟩
      rw [h2]
  · exact runOps_extends ops s

theorem created_at_set_once_at_insert_witness :
    (∃ r : RehabPlan, (⟨[wRecC9]⟩ : DBState).plans = ([] : List RehabPlan) ++ [r] ∧
      r.id = 1 ∧ r.created_at = 100) ∧
    (∃ suffix, (runOps ⟨[]⟩ [DBOp.opGetAll, DBOp.opGetStats]).plans =
      ([] : List RehabPlan) ++ suffix) :=
  have h := created_at_set_once_at_insert ⟨[]⟩ wPI "ACL Reconstruction" 10 PyVal.null
    none none true 100 [DBOp.opGetAll, DBOp.opGetStats]
  ⟨h.1 1 ⟨[wRecC9]⟩ rfl, h.2⟩

/-- C4: getStats().procedures maps each distinct procedureIdentified value
among the stored records to the number of records bearing it, and maps
nothing else; the A, A, B instance of the claim is the witness below. -/
theorem get_stats_procedures_counts (s : DBState) (v : String) :
    (v ∈ s.plans.map (fun r => r.procedure_identified) →
      ((get_stats s).procedures).lookup v =
        some ((s.plans.map (fun r => r.procedure_identified)).count v)) ∧
    (v ∉ s.plans.map (fun r => r.procedure_identified) →
      ((get_stats s).procedures).lookup v = none) := by
  constructor
  · intro hv
    show (groupCounts (s.plans.map (fun r => r.procedure_identified))).lookup v = _
    unfold groupCounts
    exact lookup_map_mem _ _ v ((dedupKeys_mem _ v).mpr hv)
  · intro hv
    show (groupCounts (s.plans.map (fun r => r.procedure_identified))).lookup v = none
    unfold groupCounts
    exact lookup_map_not_mem _ _ v (fun hm => hv ((dedupKeys_mem _ v).mp hm))

theorem get_stats_procedures_counts_witness :
    ((get_stats wABdb).procedures).lookup "A" = some 2 ∧
    ((get_stats wABdb).procedures).lookup "B" = some 1 ∧
    ((get_stats wABdb).procedures).lookup "C" = none := by
  refine ⟨?_, ?_, ?_⟩
  · rw [(get_stats_procedures_counts wABdb "A").1 (by decide)]
    decide
  · rw [(get_stats_procedures_counts wABdb "B").1 (by decide)]
    decide
  · exact (get_stats_procedures_counts wABdb "C").2 (by decide)

/-- C3 (amended): the averageAge value getStats returns is the storage
engine's aggregate: the sum of the numeric coercions of the stored
patientAge strings (a non-numeric string coerces to 0) divided by the
total record count.  Whenever every stored patientAge is a fully numeric
string, this coincides with the arithmetic mean of the patient ages. -/
theorem get_stats_average_age_numeric (s : DBState) (xs : List Rat)
    (hne : s.plans ≠ [])
    (hx : s.plans.map (fun r => numericFull r.patient_age) = xs.map some) :
    (get_stats s).average_age = some (xs.sum / (xs.length : Rat)) := by
  have hmap := map_numericFull_sqliteNum s.plans xs hx
  have hlen : s.plans.length = xs.length := by
    have h2 := congrArg List.length hx
    simpa using h2
  show (match s.plans with
    | [] => none
    | _ => some ((s.plans.map (fun (r : RehabPlan) => sqliteNum r.patient_age)).sum /
        (s.plans.length : Rat))) = _
  cases hp : s.plans with
  | nil => exact absurd hp hne
  | cons a l =>
    rw [hp] at hmap hlen
    show some (((a :: l).map (fun (r : RehabPlan) => sqliteNum r.patient_age)).sum /
      (((a :: l).length : Nat) : Rat)) = some (xs.sum / (xs.length : Rat))
    rw [hmap, hlen]

theorem get_stats_average_age_numeric_witness :
    (get_stats wAgeDb).average_age = some 35 := by
  have h30 : numericFull "30" = some 30 := by
    simp [numericFull, sqliteNumParse, skipSpaces, digitsVal, parseExpPart, isSqlSpace]
  have h40 : numericFull "40" = some 40 := by
    simp [numericFull, sqliteNumParse, skipSpaces, digitsVal, parseExpPart, isSqlSpace]
  have h := get_stats_average_age_numeric wAgeDb [30, 40] (by decide)
    (by simp [wAgeDb, h30, h40])
  rw [h]
  norm_num

/-- C3 (counterexample): on the store holding patientAge values "5" and
"N/A", the averageAge the code computes (the engine coerces "N/A" to 0 and
divides by 2, giving 5/2) differs from the arithmetic mean of the
patientAge values (5, the mean of the numeric ones), so averageAge is not
the arithmetic mean of the stored patientAge values. -/
theorem average_age_not_arithmetic_mean :
    (get_stats c3db).average_age ≠ specAverageAge c3db := by
  have hplans : c3db.plans =
      [⟨1, "5", "M", "2024-01-01", "", "", "ACL Reconstruction", 10, sLit "null", 100, none⟩,
       ⟨2, "N/A", "N/A", "", "", "", "ACL Reconstruction", 12, sLit "null", 101, none⟩] := by
    decide
  have h5 : sqliteNum "5" = 5 := by
    simp [sqliteNum, sqliteNumParse, skipSpaces, digitsVal, parseExpPart, isSqlSpace]
  have hna : sqliteNum "N/A" = 0 := by decide
  have hnf5 : numericFull "5" = some 5 := by
    simp [numericFull, sqliteNumParse, skipSpaces, digitsVal, parseExpPart, isSqlSpace]
  have hnfna : numericFull "N/A" = none := by decide
  have h1 : (get_stats c3db).average_age = some ((5 : Rat) / 2) := by
    show (match c3db.plans with
      | [] => none
      | _ => some ((c3db.plans.map (fun (r : RehabPlan) => sqliteNum r.patient_age)).sum /
          (c3db.plans.length : Rat))) = _
    rw [hplans]
    simp [h5, hna]
  have h2 : specAverageAge c3db = some 5 := by
    unfold specAverageAge
    rw [hplans]
    simp [hnf5, hnfna]
  rw [h1, h2]
  intro heq
  simp only [Option.some.injEq] at heq
  norm_num at heq

/-- C5 (counterexample): a plan dict with the integer key 1 serializes to
the JSON text with string key "1", so deserializing the stored text gives
back a different structure: the write-time/read-time round trip is not the
identity on all structured plan values. -/
theorem roundTrip_not_identity :
    roundTrip (.dict (.cons (.kint 1) (.str [120]) .nil)) ≠
      some (.dict (.cons (.kint 1) (.str [120]) .nil)) := by
  intro heq
  have h : roundTrip (.dict (.cons (.kint 1) (.str [120]) .nil)) =
      some (.dict (.cons (.kstr [49]) (.str [120]) .nil)) := rfl
  rw [h] at heq
  simp at heq

theorem roundTrip_safe_witness :
    safeV wSafePlan = true ∧ roundTrip wSafePlan = some wSafePlan :=
  ⟨by decide, roundTrip_safe wSafePlan (by decide)⟩
